import Mathlib

/-!
Verification of the idle/clicker simulation core (src/src/App.tsx).

The source is a single React component; its simulation core is a family of
pure-looking functions over a save-data record: `formatNumber`, `bulkCost`,
`makeEnemy`, `goldRewardFor`, `tick`, `simulateOffline`, the manual attack
in `handleClick`, and the purchase operations `buyClickUpgrade` and
`buyHeroLevels`.

Embedding choices:
- JavaScript numbers are modelled by `ℚ` (all constants of the program are
  decimal literals, so every arithmetic step of the program is exact on the
  inputs the claims exercise).  Integer-valued quantities (floor, levels,
  kill counters, hero ids, timestamps) are modelled by `ℤ`.
- `Math.pow(g, e)` with a possibly negative integer exponent is `zpow`.
- The `while` loop of `simulateOffline` (with its `safety = 200000` guard)
  is modelled by fuel recursion; one loop iteration is factored into
  `offlineIter`, returning `Sum.inl` for the `break` paths and `Sum.inr`
  for the `continue` paths.
- `tick` shallow-copies the state (`{ ...state }`) and then assigns
  `s.enemy.hp` and `s.enemy.bossTimeLeft` in place; the enemy object is
  therefore shared with the caller.  The value returned by `tick` is the
  functional translation `tick` below; what the caller's (aliased) enemy
  object holds after the call is the separate definition
  `tickCallerEnemy`, translated from the same two in-place assignments.
- `Date.now()` / `performance.now()` are passed in as an explicit `now`
  argument.
-/

namespace ClickerGame

/-- Enemy record (`interface Enemy` in the source). -/
structure Enemy where
  maxHp : ℚ
  hp : ℚ
  isBoss : Bool
  bossTimeLeft : Option ℚ
deriving DecidableEq

/-- Hero ownership record (`interface HeroState`). -/
structure HeroState where
  id : ℤ
  level : ℤ
deriving DecidableEq

/-- Persisted game state (`interface SaveData`).  `lastSeen` is the epoch
timestamp; the source marks it optional but always writes it, so it is
modelled as a plain field. -/
structure SaveData where
  gold : ℚ
  lifetimeGold : ℚ
  clickLevel : ℤ
  floor : ℤ
  killsThisFloor : ℤ
  heroes : List HeroState
  enemy : Option Enemy
  lastSeen : ℤ
deriving DecidableEq

/-- Hero definition from the static `HEROES` content table. -/
structure HeroDef where
  id : ℤ
  baseDps : ℚ
  baseCost : ℚ
  growth : ℚ
deriving DecidableEq

/-- The `HEROES` content table (names and flavor text dropped: no claim
mentions them). -/
def HEROES : List HeroDef :=
  [⟨1, 1, 50, 1.07⟩, ⟨2, 5, 250, 1.08⟩, ⟨3, 25, 1000, 1.09⟩,
   ⟨4, 125, 5000, 1.10⟩, ⟨5, 625, 25000, 1.11⟩, ⟨6, 3125, 125000, 1.12⟩,
   ⟨7, 15625, 600000, 1.13⟩, ⟨8, 78125, 3000000, 1.14⟩,
   ⟨9, 390625, 15000000, 1.15⟩, ⟨10, 1953125, 80000000, 1.16⟩]

/-- `CLICK.baseDamage`. -/
def clickBaseDamage : ℚ := 1
/-- `CLICK.baseCost`. -/
def clickBaseCost : ℚ := 10
/-- `CLICK.growth`. -/
def clickGrowth : ℚ := 1.15
/-- `CLICK.damageGrowth`. -/
def clickDamageGrowth : ℚ := 1.25
/-- `ENEMY.baseHp`. -/
def enemyBaseHp : ℚ := 10
/-- `ENEMY.floorGrowth`. -/
def floorGrowth : ℚ := 1.6
/-- `ENEMY.bossMultiplier`. -/
def bossMultiplier : ℚ := 12
/-- `ENEMY.perKillGoldPct`. -/
def perKillGoldPct : ℚ := 0.05
/-- `ENEMY.bossGoldMultiplier`. -/
def bossGoldMultiplier : ℚ := 2
/-- `ENEMY.bossTimeSeconds`. -/
def bossTimeSeconds : ℚ := 30
/-- `ENEMY.killsPerFloor`. -/
def killsPerFloor : ℤ := 20
/-- `OFFLINE.maxSeconds`. -/
def offlineMaxSeconds : ℚ := 12 * 60 * 60
/-- The `safety` iteration guard of the offline loop. -/
def offlineSafety : ℕ := 200000

/-- The `SUFFIXES` table of `formatNumber` (threshold, suffix), in source
order: largest threshold first. -/
def SUFFIXES : List (ℚ × String) :=
  [(1e33, "Dc"), (1e30, "No"), (1e27, "Oc"), (1e24, "Sp"), (1e21, "Sx"),
   (1e18, "Qi"), (1e15, "Qa"), (1e12, "T"), (1e9, "B"), (1e6, "M"),
   (1e3, "K")]

/-- A JavaScript number as seen by `formatNumber`: either a finite value
(modelled exactly by a rational) or a non-finite one (`NaN`, `±Infinity`,
i.e. `!isFinite(n)`). -/
inductive JSNumber where
  | fin (q : ℚ)
  | nonFinite
deriving DecidableEq

/-- The output of `formatNumber`, keeping the data the source feeds to
string conversion: either the infinity symbol, or a value together with
the number of decimal digits passed to `toFixed` and the chosen suffix
(empty for the no-suffix fallthrough). -/
inductive FormattedNumber where
  | infinitySymbol
  | fixed (value : ℚ) (decimals : ℕ) (suffix : String)
deriving DecidableEq

/-- The suffix loop and fallthrough of `formatNumber` for a finite input:
first suffix whose threshold `|n|` meets is used; otherwise it falls
through to `n.toFixed(n >= 100 ? 0 : digits)`.  Note the fallthrough tests
the signed `n >= 100`, not `|n| >= 100`. -/
def formatFinite (q : ℚ) (digits : ℕ) : FormattedNumber :=
  match SUFFIXES.find? (fun p => decide (p.1 ≤ |q|)) with
  | some p => .fixed (q / p.1) digits p.2
  | none => .fixed q (if 100 ≤ q then 0 else digits) ""

/-- `formatNumber(n, digits)`: non-finite inputs render as the infinity
symbol, finite ones go through the suffix ladder. -/
def formatNumber (n : JSNumber) (digits : ℕ) : FormattedNumber :=
  match n with
  | .nonFinite => .infinitySymbol
  | .fin q => formatFinite q digits

/-- `bulkCost(base, growth, currentLevel, qty)` from the source:
early-return 0 for `qty ≤ 0`, flat `a * qty` for `growth = 1`, otherwise
the closed-form geometric sum `a * (growth^qty - 1) / (growth - 1)` with
`a = base * growth^currentLevel`. -/
def bulkCost (base growth : ℚ) (currentLevel qty : ℤ) : ℚ :=
  if qty ≤ 0 then 0
  else
    let a := base * growth ^ currentLevel
    if growth = 1 then a * qty
    else a * (growth ^ qty - 1) / (growth - 1)

/-- The naive per-level sum `Σ_{i ∈ [0, qty)} base * growth^(currentLevel+i)`
that the spec says `bulkCost` must match. -/
def bulkCostNaive (base growth : ℚ) (currentLevel qty : ℤ) : ℚ :=
  ∑ i in Finset.range qty.toNat, base * growth ^ (currentLevel + (i : ℤ))

/-- `makeEnemy(floor, boss)`. -/
def makeEnemy (floor : ℤ) (boss : Bool) : Enemy :=
  let base := enemyBaseHp * floorGrowth ^ (floor - 1)
  let maxHp := if boss then base * bossMultiplier else base
  { maxHp := maxHp, hp := maxHp, isBoss := boss,
    bossTimeLeft := if boss then some bossTimeSeconds else none }

/-- `goldRewardFor(enemy, floor)`. -/
def goldRewardFor (enemy : Enemy) (floor : ℤ) : ℚ :=
  let base := enemy.maxHp * perKillGoldPct * (1 + (floor : ℚ) * 0.02)
  if enemy.isBoss = true then base * bossGoldMultiplier else base

/-- Base DPS of the hero with the given id in the `HEROES` table (0 when
absent; the source would fault on an absent id, which no claim exercises). -/
def heroBaseDps (id : ℤ) : ℚ :=
  ((HEROES.find? (fun h => h.id == id)).map (fun h => h.baseDps)).getD 0

/-- The `totalDps` reduction: `sum + def.baseDps * hs.level` over the owned
heroes (computed identically inside `tick` and `simulateOffline`). -/
def totalDps (heroes : List HeroState) : ℚ :=
  heroes.foldl (fun sum hs => sum + heroBaseDps hs.id * hs.level) 0

/-- The damage assignment of `tick`: `if (dps > 0 && s.enemy.hp > 0)
s.enemy.hp = Math.max(0, s.enemy.hp - dps * dt)`. -/
def damagePhase (dps dt : ℚ) (e : Enemy) : Enemy :=
  if 0 < dps ∧ 0 < e.hp then { e with hp := max 0 (e.hp - dps * dt) } else e

/-- The boss-timer assignment of `tick`: for a boss with a defined timer,
`bossTimeLeft = Math.max(0, bossTimeLeft - dt)`. -/
def timerPhase (dt : ℚ) (e : Enemy) : Enemy :=
  match e.isBoss, e.bossTimeLeft with
  | true, some t => { e with bossTimeLeft := some (max 0 (t - dt)) }
  | _, _ => e

/-- The kill branch shared verbatim between `tick` (lines 240-258), the
`onKill` closure of `simulateOffline` and the kill branch of `handleClick`:
pay the reward into gold and lifetime gold, then advance floor (boss kill)
or the kill counter (regular kill, pinned at `killsPerFloor` with a boss
spawn). -/
def resolveKill (s : SaveData) (e : Enemy) : SaveData :=
  let reward := goldRewardFor e s.floor
  let s' := { s with gold := s.gold + reward, lifetimeGold := s.lifetimeGold + reward }
  if e.isBoss = true then
    { s' with floor := s.floor + 1, killsThisFloor := 0,
              enemy := some (makeEnemy (s.floor + 1) false) }
  else
    let kills := s.killsThisFloor + 1
    if killsPerFloor ≤ kills then
      { s' with killsThisFloor := killsPerFloor, enemy := some (makeEnemy s.floor true) }
    else
      { s' with killsThisFloor := kills, enemy := some (makeEnemy s.floor false) }

/-- Body of `tick` after the initial `s.lastSeen = Date.now()` write. -/
def tickAux (s : SaveData) (dt : ℚ) : SaveData :=
  match s.enemy with
  | none => s
  | some e0 =>
    let dps := totalDps s.heroes
    let e1 := damagePhase dps dt e0
    let e2 := timerPhase dt e1
    if e2.isBoss = true ∧ e2.bossTimeLeft = some 0 ∧ 0 < e2.hp then
      let nf := max 1 (s.floor - 1)
      { s with floor := nf, killsThisFloor := 0, enemy := some (makeEnemy nf false) }
    else if e2.hp = 0 then resolveKill s e2
    else { s with enemy := some e2 }

/-- `tick(state, dt)` as the value it returns (`now` is `Date.now()`):
spread-copy the state, stamp `lastSeen`, then run the step body. -/
def tick (state : SaveData) (dt : ℚ) (now : ℤ) : SaveData :=
  tickAux { state with lastSeen := now } dt

/-- What the caller's `state.enemy` object holds after `tick(state, dt)`
returns: `tick` spreads the state shallowly, so `s.enemy` aliases the
caller's enemy object, and the two in-place assignments (damage and boss
timer) hit the shared object before any reassignment of `s.enemy`. -/
def tickCallerEnemy (state : SaveData) (dt : ℚ) : Option Enemy :=
  state.enemy.map (fun e => timerPhase dt (damagePhase (totalDps state.heroes) dt e))

/-- The caller's whole state as observed after `tick` returns: the spread
copies every top-level field, so only the shared enemy object can change. -/
def tickCallerState (state : SaveData) (dt : ℚ) : SaveData :=
  { state with enemy := tickCallerEnemy state dt }

/-- Accumulator of `simulateOffline`: the state plus the mutable report
counters `kills`, `goldEarned`, `floorsCleared` of the closure. -/
structure OffAcc where
  s : SaveData
  kills : ℤ
  goldEarned : ℚ
  floorsCleared : ℤ
deriving DecidableEq

/-- The `onKill` closure of `simulateOffline`. -/
def offKill (a : OffAcc) (enemy : Enemy) : OffAcc :=
  { s := resolveKill a.s enemy,
    kills := a.kills + 1,
    goldEarned := a.goldEarned + goldRewardFor enemy a.s.floor,
    floorsCleared := a.floorsCleared + (if enemy.isBoss = true then 1 else 0) }

/-- One iteration of the offline `while` loop body, for an active `enemy`.
`Sum.inl` carries the `break` exits (which set `timeLeft = 0`), `Sum.inr`
the `continue` exits with the remaining time. -/
def offlineIter (dps : ℚ) (a : OffAcc) (tl : ℚ) (enemy : Enemy) :
    (OffAcc × ℚ) ⊕ (OffAcc × ℚ) :=
  if enemy.isBoss = false then
    let timeToKill := enemy.hp / dps
    if enemy.hp < enemy.maxHp then
      if timeToKill ≤ tl then .inr (offKill a enemy, tl - timeToKill)
      else .inl ({ a with s := { a.s with
        enemy := some { enemy with hp := max 0 (enemy.hp - dps * tl) } } }, 0)
    else
      let remainingToBoss := killsPerFloor - a.s.killsThisFloor
      let perKill := enemy.maxHp / dps
      let canBulk := min ⌊tl / perKill⌋ remainingToBoss
      if 1 ≤ canBulk then
        .inr ((List.range canBulk.toNat).foldl (fun acc _ => offKill acc enemy) a,
              tl - canBulk * perKill)
      else if perKill ≤ tl then .inr (offKill a enemy, tl - perKill)
      else .inl ({ a with s := { a.s with
        enemy := some { enemy with hp := max 0 (enemy.hp - dps * tl) } } }, 0)
  else
    let timeToKill := enemy.hp / dps
    let timeAvailable := min (enemy.bossTimeLeft.getD bossTimeSeconds) tl
    if timeToKill ≤ timeAvailable then .inr (offKill a enemy, tl - timeToKill)
    else if tl < enemy.bossTimeLeft.getD 0 then
      .inl ({ a with s := { a.s with
        enemy := some { enemy with hp := max 0 (enemy.hp - dps * tl),
                                   bossTimeLeft := some (enemy.bossTimeLeft.getD 0 - tl) } } }, 0)
    else
      let spend := enemy.bossTimeLeft.getD 0
      let nf := max 1 (a.s.floor - 1)
      let s' := { a.s with floor := nf, killsThisFloor := 0,
                           enemy := some (makeEnemy nf false) }
      .inr ({ a with s := s' }, tl - spend)

/-- The offline `while (timeLeft > 0 && safety-- > 0 && s.enemy)` loop,
fuel-recursive on the safety counter. -/
def offlineLoop (dps : ℚ) : ℕ → OffAcc → ℚ → OffAcc × ℚ
  | 0, a, tl => (a, tl)
  | fuel + 1, a, tl =>
    if 0 < tl then
      match a.s.enemy with
      | none => (a, tl)
      | some enemy =>
        match offlineIter dps a tl enemy with
        | .inl res => res
        | .inr (a', tl') => offlineLoop dps fuel a' tl'
    else (a, tl)

/-- `simulateOffline(state, seconds)` up to the final `lastSeen` write:
returns the accumulator and the final `timeLeft` (0 exactly when the loop
ended by exhausting the elapsed time rather than the safety guard). -/
def simulateOfflineCore (state : SaveData) (seconds : ℚ) : OffAcc × ℚ :=
  let s0 := match state.enemy with
            | none => { state with enemy := some (makeEnemy state.floor false) }
            | some _ => state
  let dps := totalDps s0.heroes
  if dps ≤ 0 ∨ seconds ≤ 0 then (⟨s0, 0, 0, 0⟩, seconds)
  else offlineLoop dps offlineSafety ⟨s0, 0, 0, 0⟩ seconds

/-- The report record returned by `simulateOffline`. -/
structure OfflineReport where
  seconds : ℚ
  kills : ℤ
  gold : ℚ
  floors : ℤ
deriving DecidableEq

/-- The `{ state, report }` value returned by `simulateOffline`. -/
structure OfflineResult where
  state : SaveData
  report : OfflineReport
deriving DecidableEq

/-- `simulateOffline(state, seconds)` (`now` is the final `Date.now()`
written into `lastSeen` on both the early-return and the loop path). -/
def simulateOffline (state : SaveData) (seconds : ℚ) (now : ℤ) : OfflineResult :=
  let a := (simulateOfflineCore state seconds).1
  { state := { a.s with lastSeen := now },
    report := { seconds := seconds, kills := a.kills, gold := a.goldEarned,
                floors := a.floorsCleared } }

/-- `clickDamage` memo: `CLICK.baseDamage * CLICK.damageGrowth^(clickLevel-1)`. -/
def clickDamage (clickLevel : ℤ) : ℚ :=
  clickBaseDamage * clickDamageGrowth ^ (clickLevel - 1)

/-- The manual attack: the `setSave` updater of `handleClick` together with
its outer guard (`!save.enemy || save.enemy.hp === 0` returns without
updating).  Its kill branch is literally the shared kill resolution. -/
def attack (s : SaveData) : SaveData :=
  match s.enemy with
  | none => s
  | some e =>
    if e.hp = 0 then s
    else
      let newEnemy : Enemy := { e with hp := max 0 (e.hp - clickDamage s.clickLevel) }
      if newEnemy.hp = 0 then resolveKill s newEnemy
      else { s with enemy := some newEnemy }

/-- `buyClickUpgrade(qty)`. -/
def buyClickUpgrade (s : SaveData) (qty : ℤ) : SaveData :=
  let cost := bulkCost clickBaseCost clickGrowth (s.clickLevel - 1) qty
  if s.gold < cost then s
  else { s with gold := s.gold - cost, clickLevel := s.clickLevel + qty }

/-- `heroLevels(id)`: level of the owned hero entry, 0 if unseen. -/
def heroLevels (s : SaveData) (id : ℤ) : ℤ :=
  ((s.heroes.find? (fun h => h.id == id)).map (fun h => h.level)).getD 0

/-- `buyHeroLevels(heroId, qty)`.  The source dereferences
`HEROES.find(...)!` unconditionally and would fault on an id outside the
content table; that case is modelled as a no-op and excluded by a
membership hypothesis in every claim that uses this operation. -/
def buyHeroLevels (s : SaveData) (heroId qty : ℤ) : SaveData :=
  match HEROES.find? (fun h => h.id == heroId) with
  | none => s
  | some hero =>
    let cost := bulkCost hero.baseCost hero.growth (heroLevels s heroId) qty
    if s.gold < cost then s
    else { s with gold := s.gold - cost,
                  heroes := s.heroes.map (fun hs =>
                    if hs.id == heroId then { hs with level := hs.level + qty } else hs) }

/-- Repeated `tick` with a list of time deltas (the spec's "applying tick
repeatedly with those dts"). -/
def tickFold (s : SaveData) (dts : List ℚ) (now : ℤ) : SaveData :=
  dts.foldl (fun st d => tick st d now) s

/-- Erase the wall-clock field, which `tick` rewrites on every call and
`simulateOffline` rewrites once at the end. -/
def stripTime (s : SaveData) : SaveData := { s with lastSeen := 0 }

/-- Well-formedness of an active encounter relative to its floor: alive,
not over-healed, with the max HP the factory assigns for that floor, and a
positive timer exactly when the source relies on one (boss). -/
def enemyWF (floor : ℤ) (e : Enemy) : Prop :=
  0 < e.hp ∧ e.hp ≤ e.maxHp ∧ e.maxHp = (makeEnemy floor e.isBoss).maxHp ∧
    (e.isBoss = true → ∃ t, e.bossTimeLeft = some t ∧ 0 < t)

/-- Well-formedness of a state for the tick/offline equivalence: an active
encounter is present and well-formed. -/
def stateWF (s : SaveData) : Prop :=
  ∃ e, s.enemy = some e ∧ enemyWF s.floor e

/-- The kill-counter invariant of the spec: never above `killsPerFloor`,
and pinned at the cap only while a boss encounter is active. -/
def killsInv (s : SaveData) : Prop :=
  s.killsThisFloor ≤ killsPerFloor ∧
    (s.killsThisFloor = killsPerFloor → ∃ e, s.enemy = some e ∧ e.isBoss = true)

/-! Concrete states and accumulators used by the claim instances. -/

/-- Fresh floor-1 state with one Archer (5 DPS): the running example state. -/
def archerState : SaveData :=
  { gold := 0, lifetimeGold := 0, clickLevel := 1, floor := 1, killsThisFloor := 0,
    heroes := [⟨2, 1⟩], enemy := some (makeEnemy 1 false), lastSeen := 0 }

/-- Floor-3 boss with 1 second on the clock and no hero DPS. -/
def bossEscapeState : SaveData :=
  { gold := 0, lifetimeGold := 0, clickLevel := 1, floor := 3, killsThisFloor := 20,
    heroes := [], enemy := some ⟨120, 50, true, some 1⟩, lastSeen := 0 }

/-- State holding an already-dead encounter (hp exactly 0). -/
def deadEnemyState : SaveData :=
  { gold := 0, lifetimeGold := 0, clickLevel := 1, floor := 1, killsThisFloor := 0,
    heroes := [], enemy := some ⟨10, 0, false, none⟩, lastSeen := 5 }

/-- State with gold but no roster entry for any hero. -/
def noHeroEntryState : SaveData :=
  { gold := 50, lifetimeGold := 0, clickLevel := 1, floor := 1, killsThisFloor := 0,
    heroes := [], enemy := none, lastSeen := 0 }

/-- The running example state with enough gold for any small purchase. -/
def richState : SaveData :=
  { gold := 1000000, lifetimeGold := 0, clickLevel := 1, floor := 1, killsThisFloor := 0,
    heroes := [⟨2, 1⟩], enemy := some (makeEnemy 1 false), lastSeen := 0 }

/-- Relation between accumulator snapshots of the offline loop: gold and
lifetime gold have grown by exactly the reported gold, and the floors
counter grew by at most the kills counter. -/
def offAccR (a b : OffAcc) : Prop :=
  b.s.gold - b.goldEarned = a.s.gold - a.goldEarned ∧
  b.s.lifetimeGold - b.goldEarned = a.s.lifetimeGold - a.goldEarned ∧
  a.floorsCleared ≤ b.floorsCleared ∧
  b.floorsCleared - a.floorsCleared ≤ b.kills - a.kills

/-- Boss-escape asymmetry scenario: a nearly-dead floor-1 boss, one Squire
(1 DPS), and 351 seconds: one boss kill, a bulk of 20 regular kills, then
a boss escape, ending back on floor 1. -/
def asymState : SaveData :=
  { gold := 0, lifetimeGold := 0, clickLevel := 1, floor := 1, killsThisFloor := 20,
    heroes := [⟨1, 1⟩], enemy := some ⟨120, 1, true, some 30⟩, lastSeen := 0 }

def asymAcc1 : OffAcc :=
  ⟨{ gold := 306/25, lifetimeGold := 306/25, clickLevel := 1, floor := 2,
     killsThisFloor := 0, heroes := [⟨1, 1⟩], enemy := some ⟨16, 16, false, none⟩,
     lastSeen := 0 }, 1, 306/25, 1⟩

def asymAcc2 : OffAcc :=
  ⟨{ gold := 722/25, lifetimeGold := 722/25, clickLevel := 1, floor := 2,
     killsThisFloor := 20, heroes := [⟨1, 1⟩], enemy := some ⟨192, 192, true, some 30⟩,
     lastSeen := 0 }, 21, 722/25, 1⟩

def asymAcc3 : OffAcc :=
  ⟨{ gold := 722/25, lifetimeGold := 722/25, clickLevel := 1, floor := 1,
     killsThisFloor := 0, heroes := [⟨1, 1⟩], enemy := some ⟨10, 10, false, none⟩,
     lastSeen := 0 }, 21, 722/25, 1⟩

/-- A floor-1 state with a level-1 Archer (5 DPS) and the literal form of
the fresh floor-1 encounter. -/
def c1State : SaveData :=
  { gold := 0, lifetimeGold := 0, clickLevel := 1, floor := 1, killsThisFloor := 0,
    heroes := [⟨2, 1⟩], enemy := some ⟨10, 10, false, none⟩, lastSeen := 0 }

/-- The accumulator after the offline loop resolves one floor-1 kill. -/
def c1Acc : OffAcc :=
  ⟨{ gold := 51/100, lifetimeGold := 51/100, clickLevel := 1, floor := 1,
     killsThisFloor := 1, heroes := [⟨2, 1⟩], enemy := some ⟨10, 10, false, none⟩,
     lastSeen := 0 }, 1, 51/100, 0⟩

/-! Basic lemmas about the embedded operations. -/

lemma offlineLoop_succ (dps : ℚ) (fuel : ℕ) (a : OffAcc) (tl : ℚ) :
    offlineLoop dps (fuel + 1) a tl =
      if 0 < tl then
        match a.s.enemy with
        | none => (a, tl)
        | some enemy =>
          match offlineIter dps a tl enemy with
          | .inl res => res
          | .inr (a', tl') => offlineLoop dps fuel a' tl'
      else (a, tl) := rfl

lemma offlineLoop_nonpos (dps : ℚ) (fuel : ℕ) (a : OffAcc) (tl : ℚ) (h : ¬ 0 < tl) :
    offlineLoop dps fuel a tl = (a, tl) := by
  cases fuel with
  | zero => rfl
  | succ n => rw [offlineLoop_succ, if_neg h]

lemma offlineLoop_cont (dps : ℚ) (fuel : ℕ) (a a' : OffAcc) (tl tl' : ℚ) (e : Enemy)
    (htl : 0 < tl) (he : a.s.enemy = some e)
    (hit : offlineIter dps a tl e = .inr (a', tl')) :
    offlineLoop dps (fuel + 1) a tl = offlineLoop dps fuel a' tl' := by
  rw [offlineLoop_succ, if_pos htl, he]
  simp only [hit]

lemma offlineLoop_brk (dps : ℚ) (fuel : ℕ) (a : OffAcc) (tl : ℚ) (e : Enemy)
    (res : OffAcc × ℚ) (htl : 0 < tl) (he : a.s.enemy = some e)
    (hit : offlineIter dps a tl e = .inl res) :
    offlineLoop dps (fuel + 1) a tl = res := by
  rw [offlineLoop_succ, if_pos htl, he]
  simp only [hit]

lemma damagePhase_maxHp (dps dt : ℚ) (e : Enemy) :
    (damagePhase dps dt e).maxHp = e.maxHp := by
  unfold damagePhase; split <;> rfl

lemma damagePhase_isBoss (dps dt : ℚ) (e : Enemy) :
    (damagePhase dps dt e).isBoss = e.isBoss := by
  unfold damagePhase; split <;> rfl

lemma damagePhase_bossTimeLeft (dps dt : ℚ) (e : Enemy) :
    (damagePhase dps dt e).bossTimeLeft = e.bossTimeLeft := by
  unfold damagePhase; split <;> rfl

lemma timerPhase_maxHp (dt : ℚ) (e : Enemy) : (timerPhase dt e).maxHp = e.maxHp := by
  unfold timerPhase; split <;> rfl

lemma timerPhase_isBoss (dt : ℚ) (e : Enemy) : (timerPhase dt e).isBoss = e.isBoss := by
  unfold timerPhase; split <;> rfl

lemma timerPhase_hp (dt : ℚ) (e : Enemy) : (timerPhase dt e).hp = e.hp := by
  unfold timerPhase; split <;> rfl

lemma timerPhase_of_not_boss (dt : ℚ) (e : Enemy) (h : e.isBoss = false) :
    timerPhase dt e = e := by
  unfold timerPhase
  split
  · rename_i heq _; rw [h] at heq; exact absurd heq (by simp)
  · rfl

/-- `resolveKill` reads the enemy only through `maxHp` and `isBoss`. -/
lemma resolveKill_eqOn (s : SaveData) (e e' : Enemy)
    (h1 : e.maxHp = e'.maxHp) (h2 : e.isBoss = e'.isBoss) :
    resolveKill s e = resolveKill s e' := by
  unfold resolveKill goldRewardFor
  rw [h1, h2]

/-- `resolveKill` neither reads nor writes `lastSeen`, and never reads the
stored encounter. -/
lemma resolveKill_erase (s : SaveData) (e : Enemy) (x : ℤ) (y : Option Enemy) :
    resolveKill { s with lastSeen := x, enemy := y } e
      = { resolveKill s e with lastSeen := x } := by
  simp only [resolveKill]
  split_ifs <;> rfl

lemma resolveKill_heroes (s : SaveData) (e : Enemy) :
    (resolveKill s e).heroes = s.heroes := by
  simp only [resolveKill]
  split_ifs <;> rfl

lemma resolveKill_lastSeen (s : SaveData) (e : Enemy) :
    (resolveKill s e).lastSeen = s.lastSeen := by
  simp only [resolveKill]
  split_ifs <;> rfl

lemma stripTime_gold (s : SaveData) : (stripTime s).gold = s.gold := rfl
lemma stripTime_floor (s : SaveData) : (stripTime s).floor = s.floor := rfl

/-- Two states with equal time-erasure are identical once the clock is
rewritten, which is the first thing `tick` does. -/
lemma stamp_eq_of_stripTime {s₁ s₂ : SaveData} (now : ℤ)
    (h : stripTime s₁ = stripTime s₂) :
    ({ s₁ with lastSeen := now } : SaveData) = { s₂ with lastSeen := now } := by
  cases s₁; cases s₂
  simpa [stripTime, SaveData.mk.injEq] using h

lemma tick_congr {s₁ s₂ : SaveData} (dt : ℚ) (now : ℤ)
    (h : stripTime s₁ = stripTime s₂) : tick s₁ dt now = tick s₂ dt now := by
  unfold tick
  rw [stamp_eq_of_stripTime now h]

lemma tickFold_nil (s : SaveData) (now : ℤ) : tickFold s [] now = s := rfl

lemma tickFold_cons (s : SaveData) (d : ℚ) (dts : List ℚ) (now : ℤ) :
    tickFold s (d :: dts) now = tickFold (tick s d now) dts now := rfl

lemma tickFold_congr {s₁ s₂ : SaveData} (dts : List ℚ) (now : ℤ)
    (h : stripTime s₁ = stripTime s₂) :
    stripTime (tickFold s₁ dts now) = stripTime (tickFold s₂ dts now) := by
  cases dts with
  | nil => simpa [tickFold] using h
  | cons d rest =>
    rw [tickFold_cons, tickFold_cons, tick_congr d now h]

lemma tickFold_append (s : SaveData) (dts₁ dts₂ : List ℚ) (now : ℤ) :
    tickFold s (dts₁ ++ dts₂) now = tickFold (tickFold s dts₁ now) dts₂ now := by
  unfold tickFold
  exact List.foldl_append _ _ _ _

lemma tickFold_append_strip (s s' : SaveData) (dts₁ dts₂ : List ℚ) (now : ℤ)
    (h : stripTime (tickFold s dts₁ now) = stripTime s') :
    stripTime (tickFold s (dts₁ ++ dts₂) now) = stripTime (tickFold s' dts₂ now) := by
  rw [tickFold_append]
  exact tickFold_congr dts₂ now h

/-- C2: `bulkCost` returns 0 for `qty` at most 0 and `base * qty` for unit growth; otherwise, whenever the power is defined over the rationals (nonzero growth or nonnegative level), it equals the naive per-level sum of `base * growth ^ (currentLevel + i)` for `i` below `qty`. -/
theorem bulkCost_matches_naive (base growth : ℚ) (lvl qty : ℤ) :
    (qty ≤ 0 → bulkCost base growth lvl qty = 0) ∧
    (growth = 1 → 0 < qty → bulkCost base growth lvl qty = base * qty) ∧
    ((growth ≠ 0 ∨ 0 ≤ lvl) →
      bulkCost base growth lvl qty = bulkCostNaive base growth lvl qty) := by
  refine ⟨fun h => by simp [bulkCost, h], ?_, ?_⟩
  · intro hg hq
    simp [bulkCost, not_le.2 hq, hg, one_zpow]
  · intro hcase
    by_cases hq : qty ≤ 0
    · simp [bulkCost, hq, bulkCostNaive, Int.toNat_of_nonpos hq]
    · push_neg at hq
      have hn : qty = (qty.toNat : ℤ) := (Int.toNat_of_nonneg hq.le).symm
      by_cases hg : growth = 1
      · subst hg
        simp only [bulkCost, if_neg (not_le.2 hq), if_pos rfl, one_zpow, mul_one,
          bulkCostNaive]
        rw [Finset.sum_const, nsmul_eq_mul, Finset.card_range]
        have hcast : ((qty.toNat : ℕ) : ℚ) = (qty : ℚ) := by exact_mod_cast hn.symm
        rw [hcast, mul_comm]
        simp
      · by_cases hg0 : growth = 0
        · have hlvl : 0 ≤ lvl := hcase.resolve_left (by simpa using hg0)
          subst hg0
          have hzq : (0:ℚ) ^ qty = 0 := zero_zpow qty (by omega)
          simp only [bulkCost, if_neg (not_le.2 hq), if_neg hg, hzq, bulkCostNaive]
          rcases eq_or_lt_of_le hlvl with h0 | hpos
          · rw [← h0]
            rw [zpow_zero, mul_one]
            have hone : (1:ℕ) ≤ qty.toNat := by omega
            rw [Finset.sum_eq_single 0]
            · norm_num
            · intro i _ hi
              rw [zero_add, zero_zpow _ (by exact_mod_cast hi), mul_zero]
            · intro habs
              exact absurd (Finset.mem_range.2 (by omega)) habs
          · rw [zero_zpow lvl (by omega), mul_zero, zero_mul, zero_div]
            refine (Finset.sum_eq_zero ?_).symm
            intro i _
            rw [zero_zpow (lvl + (i:ℤ)) (by omega), mul_zero]
        · simp only [bulkCost, if_neg (not_le.2 hq), if_neg hg, bulkCostNaive]
          have hterm : ∀ i ∈ Finset.range qty.toNat,
              base * growth ^ (lvl + (i:ℤ)) = (base * growth ^ lvl) * growth ^ (i:ℕ) := by
            intro i _
            rw [zpow_add₀ hg0, zpow_natCast]
            ring
          rw [Finset.sum_congr rfl hterm, ← Finset.mul_sum, geom_sum_eq hg]
          have hqpow : growth ^ qty = growth ^ qty.toNat := by
            conv_lhs => rw [hn]
            exact zpow_natCast growth qty.toNat
          rw [hqpow]
          ring

theorem bulkCost_matches_naive_witness :
    bulkCost 10 1.15 0 (-1) = 0 ∧ bulkCost 7 1 0 3 = 7 * 3 ∧
    bulkCost 10 1.15 0 3 = bulkCostNaive 10 1.15 0 3 :=
  ⟨(bulkCost_matches_naive 10 1.15 0 (-1)).1 (by norm_num),
   (bulkCost_matches_naive 7 1 0 3).2.1 rfl (by norm_num),
   (bulkCost_matches_naive 10 1.15 0 3).2.2 (Or.inl (by norm_num))⟩

lemma suffixes_find_none (q : ℚ) (h : |q| < 1000) :
    SUFFIXES.find? (fun p => decide (p.1 ≤ |q|)) = none := by
  rw [List.find?_eq_none]
  intro p hp
  simp only [SUFFIXES, List.mem_cons, List.not_mem_nil, or_false] at hp
  rcases hp with rfl | rfl | rfl | rfl | rfl | rfl | rfl | rfl | rfl | rfl | rfl <;>
    · simp only [decide_eq_true_eq, not_le]
      exact h.trans_le (by norm_num)

/-- C9: below 1000, `formatNumber` fixes to 0 decimals exactly when `100 <= n` as a signed comparison — the claimed absolute-value test fails at `n = -150`, see the counterexample — and to `digits` decimals otherwise; non-finite input renders as the infinity symbol. -/
theorem formatNumber_below_thousand (q : ℚ) (digits : ℕ) (h : |q| < 1000) :
    formatNumber (.fin q) digits = .fixed q (if 100 ≤ q then 0 else digits) "" ∧
    formatNumber .nonFinite digits = .infinitySymbol := by
  refine ⟨?_, rfl⟩
  show formatFinite q digits = _
  unfold formatFinite
  rw [suffixes_find_none q h]

theorem formatNumber_below_thousand_witness :
    |(50:ℚ)| < 1000 ∧ formatNumber (.fin 50) 2 = .fixed 50 2 "" ∧
    formatNumber .nonFinite 2 = .infinitySymbol := by
  refine ⟨by norm_num, ?_, (formatNumber_below_thousand 50 2 (by norm_num)).2⟩
  have h := (formatNumber_below_thousand 50 2 (by norm_num)).1
  rw [if_neg (by norm_num : ¬ (100:ℚ) ≤ 50)] at h
  exact h

theorem formatNumber_signed_hundreds :
    (100:ℚ) ≤ |(-150:ℚ)| ∧
    formatNumber (.fin (-150)) 2 = .fixed (-150) 2 "" ∧
    (FormattedNumber.fixed (-150) 2 "") ≠ .fixed (-150) 0 "" := by
  refine ⟨by norm_num, ?_, by simp⟩
  have hn : |(-150:ℚ)| < 1000 := by norm_num
  show formatFinite (-150) 2 = _
  unfold formatFinite
  rw [suffixes_find_none _ hn]
  norm_num

lemma tickAux_none (s : SaveData) (dt : ℚ) (he : s.enemy = none) : tickAux s dt = s := by
  obtain ⟨g, lg, cl, fl, k, hs, en, ls⟩ := s
  cases he
  rfl

lemma tickAux_some (s : SaveData) (e : Enemy) (dt : ℚ) (he : s.enemy = some e) :
    tickAux s dt =
      (if (timerPhase dt (damagePhase (totalDps s.heroes) dt e)).isBoss = true ∧
          (timerPhase dt (damagePhase (totalDps s.heroes) dt e)).bossTimeLeft = some 0 ∧
          0 < (timerPhase dt (damagePhase (totalDps s.heroes) dt e)).hp then
         { s with floor := max 1 (s.floor - 1), killsThisFloor := 0,
                  enemy := some (makeEnemy (max 1 (s.floor - 1)) false) }
       else if (timerPhase dt (damagePhase (totalDps s.heroes) dt e)).hp = 0 then
         resolveKill s (timerPhase dt (damagePhase (totalDps s.heroes) dt e))
       else { s with enemy := some (timerPhase dt (damagePhase (totalDps s.heroes) dt e)) }) := by
  obtain ⟨g, lg, cl, fl, k, hs, en, ls⟩ := s
  cases he
  rfl

lemma set_enemy_eta (s : SaveData) (e : Enemy) (h : s.enemy = some e) :
    ({ s with enemy := some e } : SaveData) = s := by
  obtain ⟨g, lg, cl, fl, k, hs, en, ls⟩ := s
  cases h
  rfl

lemma damagePhase_pos (dps dt : ℚ) (e : Enemy) (h : 0 < dps ∧ 0 < e.hp) :
    damagePhase dps dt e = { e with hp := max 0 (e.hp - dps * dt) } := by
  unfold damagePhase; rw [if_pos h]

lemma damagePhase_neg (dps dt : ℚ) (e : Enemy) (h : ¬ (0 < dps ∧ 0 < e.hp)) :
    damagePhase dps dt e = e := by
  unfold damagePhase; rw [if_neg h]

lemma timerPhase_boss (dt : ℚ) (e : Enemy) (t : ℚ) (hb : e.isBoss = true)
    (ht : e.bossTimeLeft = some t) :
    timerPhase dt e = { e with bossTimeLeft := some (max 0 (t - dt)) } := by
  obtain ⟨m, hp, b, bt⟩ := e
  cases hb
  cases ht
  rfl

lemma timerPhase_no_timer (dt : ℚ) (e : Enemy) (h : e.bossTimeLeft = none) :
    timerPhase dt e = e := by
  obtain ⟨m, hp, b, bt⟩ := e
  cases h
  cases b <;> rfl

/-- Damaged hp stays positive when the damage of this step is less than hp. -/
lemma damagePhase_hp_pos (dps dt : ℚ) (e : Enemy) (hhp : 0 < e.hp)
    (hnk : dps * dt < e.hp) : 0 < (damagePhase dps dt e).hp := by
  by_cases h : 0 < dps ∧ 0 < e.hp
  · rw [damagePhase_pos dps dt e h]
    show 0 < max 0 (e.hp - dps * dt)
    have h2 : (0:ℚ) < e.hp - dps * dt := by linarith
    exact lt_max_of_lt_right h2
  · rw [damagePhase_neg dps dt e h]
    exact hhp

/-- Shared escape-step lemma: a boss whose timer is driven to 0 while its
(damaged) hp is still positive regresses the floor and spawns a fresh
regular encounter, leaving everything else untouched. -/
lemma tick_escape (s : SaveData) (dt : ℚ) (now : ℤ) (e : Enemy) (t : ℚ)
    (he : s.enemy = some e) (hb : e.isBoss = true) (ht : e.bossTimeLeft = some t)
    (hdt : t ≤ dt) (hhp : 0 < e.hp) (hnk : totalDps s.heroes * dt < e.hp) :
    tick s dt now = { s with lastSeen := now, floor := max 1 (s.floor - 1), killsThisFloor := 0, enemy := some (makeEnemy (max 1 (s.floor - 1)) false) } := by
  unfold tick
  rw [tickAux_some _ e dt (by simpa using he)]
  have hd1 : (damagePhase (totalDps s.heroes) dt e).isBoss = true := by
    rw [damagePhase_isBoss]; exact hb
  have hd2 : (damagePhase (totalDps s.heroes) dt e).bossTimeLeft = some t := by
    rw [damagePhase_bossTimeLeft]; exact ht
  rw [timerPhase_boss dt _ t hd1 hd2]
  have hmax : max 0 (t - dt) = 0 := max_eq_left (by linarith)
  rw [hmax]
  have hpos : 0 < (damagePhase (totalDps s.heroes) dt e).hp :=
    damagePhase_hp_pos _ _ _ hhp hnk
  rw [if_pos (show _ from ⟨hd1, rfl, hpos⟩)]

/-- C3: in `tick`, a boss whose timer is driven to exactly 0 this step while its hp stays positive escapes: the floor drops by exactly 1 but never below 1, the kill counter resets to 0, a fresh regular encounter for the new floor spawns, and the rest of the step is short-circuited. -/
theorem tick_bossEscape_resets (s : SaveData) (dt : ℚ) (now : ℤ) (e : Enemy) (t : ℚ)
    (he : s.enemy = some e) (hb : e.isBoss = true) (ht : e.bossTimeLeft = some t)
    (htpos : 0 < t) (hdt : t ≤ dt) (hhp : 0 < e.hp)
    (hnk : totalDps s.heroes * dt < e.hp) :
    (tick s dt now).floor = max 1 (s.floor - 1) ∧
    (tick s dt now).killsThisFloor = 0 ∧
    (tick s dt now).enemy = some (makeEnemy (max 1 (s.floor - 1)) false) ∧
    (tick s dt now).gold = s.gold ∧ (tick s dt now).lifetimeGold = s.lifetimeGold ∧
    (tick s dt now).clickLevel = s.clickLevel ∧ (tick s dt now).heroes = s.heroes := by
  rw [tick_escape s dt now e t he hb ht hdt hhp hnk]
  exact ⟨rfl, rfl, rfl, rfl, rfl, rfl, rfl⟩

theorem tick_bossEscape_resets_witness :
    (tick bossEscapeState 2 9).floor = 2 ∧ (tick bossEscapeState 2 9).killsThisFloor = 0 := by
  have h := tick_bossEscape_resets bossEscapeState 2 9 ⟨120, 50, true, some 1⟩ 1
    rfl rfl rfl (by norm_num) (by norm_num) (by norm_num) (by norm_num [totalDps, bossEscapeState])
  refine ⟨?_, h.2.1⟩
  rw [h.1]
  norm_num [bossEscapeState]

/-- C6: `tick state 0` returns the state unchanged except for `lastSeen`, provided no encounter sits at exactly 0 hp and no boss timer is at or below 0; the counterexample shows a dead encounter is resolved, changing gold, even at `dt = 0`. -/
theorem tick_zero_dt (s : SaveData) (now : ℤ)
    (h : ∀ e, s.enemy = some e →
      e.hp ≠ 0 ∧ (e.isBoss = true → ∀ t, e.bossTimeLeft = some t → 0 < t)) :
    tick s 0 now = { s with lastSeen := now } := by
  unfold tick
  cases he : s.enemy with
  | none => exact tickAux_none _ 0 (by simpa using he)
  | some e =>
    obtain ⟨hhp, hbt⟩ := h e he
    rw [tickAux_some _ e 0 (by simpa using he)]
    have he1 : damagePhase (totalDps s.heroes) 0 e = e := by
      by_cases hc : 0 < totalDps s.heroes ∧ 0 < e.hp
      · rw [damagePhase_pos _ _ _ hc, mul_zero, sub_zero, max_eq_right hc.2.le]
      · exact damagePhase_neg _ _ _ hc
    rw [he1]
    have he2 : timerPhase 0 e = e := by
      cases hbb : e.isBoss with
      | false => exact timerPhase_of_not_boss 0 e hbb
      | true =>
        cases hbtl : e.bossTimeLeft with
        | none => exact timerPhase_no_timer 0 e hbtl
        | some t =>
          rw [timerPhase_boss 0 e t hbb hbtl, sub_zero,
            max_eq_right (hbt hbb t hbtl).le, ← hbtl]
    rw [he2]
    have hnesc : ¬ (e.isBoss = true ∧ e.bossTimeLeft = some 0 ∧ 0 < e.hp) := by
      rintro ⟨hb', hbt', -⟩
      exact lt_irrefl 0 (hbt hb' 0 hbt')
    rw [if_neg hnesc, if_neg hhp]

theorem tick_zero_dt_counterexample :
    (tick deadEnemyState 0 5).gold ≠ deadEnemyState.gold := by
  norm_num [tick, tickAux, deadEnemyState, damagePhase, timerPhase, resolveKill,
    goldRewardFor, totalDps, killsPerFloor, perKillGoldPct, bossGoldMultiplier]

theorem tick_zero_dt_witness : tick archerState 0 9 = { archerState with lastSeen := 9 } := by
  refine tick_zero_dt archerState 9 ?_
  intro e he
  have h2 : some (makeEnemy 1 false) = some e := by simpa [archerState] using he
  have h3 : e = makeEnemy 1 false := (Option.some.inj h2).symm
  subst h3
  constructor
  · norm_num [makeEnemy, enemyBaseHp, floorGrowth]
  · intro hb
    exact absurd hb (by norm_num [makeEnemy])

lemma resolveKill_gold (s : SaveData) (e : Enemy) :
    (resolveKill s e).gold = s.gold + goldRewardFor e s.floor := by
  simp only [resolveKill]
  split_ifs <;> rfl

lemma resolveKill_lifetimeGold (s : SaveData) (e : Enemy) :
    (resolveKill s e).lifetimeGold = s.lifetimeGold + goldRewardFor e s.floor := by
  simp only [resolveKill]
  split_ifs <;> rfl

/-- Shared kill-step lemma: when this step's damage reaches the remaining
hp, `tick` resolves the kill exactly as `resolveKill` does. -/
lemma tick_kill (s : SaveData) (dt : ℚ) (now : ℤ) (e : Enemy)
    (he : s.enemy = some e) (hdps : 0 < totalDps s.heroes) (hhp : 0 < e.hp)
    (hkill : e.hp ≤ totalDps s.heroes * dt) :
    tick s dt now = { resolveKill s e with lastSeen := now } := by
  unfold tick
  rw [tickAux_some _ e dt (by simpa using he)]
  have he1 : damagePhase (totalDps s.heroes) dt e = { e with hp := 0 } := by
    rw [damagePhase_pos _ _ _ ⟨hdps, hhp⟩, max_eq_left (by linarith)]
  rw [he1]
  have hhp2 : (timerPhase dt { e with hp := 0 }).hp = 0 := timerPhase_hp _ _
  have hnesc : ¬ ((timerPhase dt { e with hp := 0 }).isBoss = true ∧
      (timerPhase dt { e with hp := 0 }).bossTimeLeft = some 0 ∧
      0 < (timerPhase dt { e with hp := 0 }).hp) := by
    rintro ⟨-, -, habs⟩
    rw [hhp2] at habs
    exact lt_irrefl 0 habs
  rw [if_neg hnesc, if_pos hhp2]
  rw [resolveKill_eqOn _ (timerPhase dt { e with hp := 0 }) e (by rw [timerPhase_maxHp]) (by rw [timerPhase_isBoss])]
  exact resolveKill_erase s e now s.enemy

/-- C5 (code bug): `tick` spreads the state shallowly and then assigns the shared encounter object in place, so the encounter reachable from the caller is mutated: after one 1-second tick from `archerState`, the alias held by the caller reads hp 5 instead of the original 10, contradicting the claimed purity. -/
theorem tick_mutates_caller_enemy :
    tickCallerEnemy archerState 1 ≠ archerState.enemy ∧
    tickCallerEnemy archerState 1 = some ⟨10, 5, false, none⟩ := by
  have h : tickCallerEnemy archerState 1 = some ⟨10, 5, false, none⟩ := by
    norm_num [tickCallerEnemy, archerState, damagePhase, timerPhase, totalDps,
      heroBaseDps, HEROES, makeEnemy, enemyBaseHp, floorGrowth]
  refine ⟨?_, h⟩
  rw [h]
  norm_num [archerState, makeEnemy, enemyBaseHp, floorGrowth, Enemy.mk.injEq]

/-- C8: every kill, in `tick` and in the offline resolver alike, adds `maxHp * perKillGoldPct * (1 + floor * 0.02)`, doubled for bosses, to both gold and lifetime gold (and to the offline gold report); a floor-1 regular enemy with maxHp 10 awards exactly 0.51. -/
theorem kill_reward_rule :
    (∀ (s : SaveData) (dt : ℚ) (now : ℤ) (e : Enemy), s.enemy = some e →
      0 < totalDps s.heroes → 0 < e.hp → e.hp ≤ totalDps s.heroes * dt →
      (tick s dt now).gold = s.gold + goldRewardFor e s.floor ∧
      (tick s dt now).lifetimeGold = s.lifetimeGold + goldRewardFor e s.floor) ∧
    (∀ (a : OffAcc) (e : Enemy),
      (offKill a e).s.gold = a.s.gold + goldRewardFor e a.s.floor ∧
      (offKill a e).s.lifetimeGold = a.s.lifetimeGold + goldRewardFor e a.s.floor ∧
      (offKill a e).goldEarned = a.goldEarned + goldRewardFor e a.s.floor) ∧
    (∀ (e : Enemy) (f : ℤ), e.isBoss = true →
      goldRewardFor e f = e.maxHp * perKillGoldPct * (1 + (f:ℚ) * 0.02) * bossGoldMultiplier) ∧
    (∀ (e : Enemy) (f : ℤ), e.isBoss = false →
      goldRewardFor e f = e.maxHp * perKillGoldPct * (1 + (f:ℚ) * 0.02)) ∧
    goldRewardFor (makeEnemy 1 false) 1 = 51 / 100 := by
  refine ⟨?_, ?_, ?_, ?_, ?_⟩
  · intro s dt now e he hdps hhp hkill
    rw [tick_kill s dt now e he hdps hhp hkill]
    exact ⟨resolveKill_gold s e, resolveKill_lifetimeGold s e⟩
  · intro a e
    exact ⟨resolveKill_gold a.s e, resolveKill_lifetimeGold a.s e, rfl⟩
  · intro e f hb
    simp [goldRewardFor, hb]
  · intro e f hb
    simp [goldRewardFor, hb]
  · norm_num [goldRewardFor, makeEnemy, enemyBaseHp, floorGrowth, perKillGoldPct,
      bossGoldMultiplier]

theorem kill_reward_rule_witness :
    (tick archerState 3 7).gold
      = archerState.gold + goldRewardFor (makeEnemy 1 false) archerState.floor :=
  ((kill_reward_rule).1 archerState 3 7 (makeEnemy 1 false) rfl
    (by norm_num [totalDps, archerState, heroBaseDps, HEROES])
    (by norm_num [makeEnemy, enemyBaseHp, floorGrowth])
    (by norm_num [makeEnemy, totalDps, archerState, heroBaseDps, HEROES,
      enemyBaseHp, floorGrowth])).1

/-- Applying the per-hero level bump commutes with looking the hero up:
the first entry matching `heroId` in the updated roster is the bumped
image of the first matching entry of the original roster. -/
lemma find?_levelAdd (l : List HeroState) (heroId qty : ℤ) :
    ((l.map (fun hs => if hs.id == heroId then { hs with level := hs.level + qty } else hs)).find?
        (fun hs => hs.id == heroId))
      = (l.find? (fun hs => hs.id == heroId)).map
          (fun hs => { hs with level := hs.level + qty }) := by
  induction l with
  | nil => rfl
  | cons a l ih =>
    rw [List.map_cons]
    by_cases ha : a.id = heroId
    · have hif : (if a.id == heroId then ({ a with level := a.level + qty } : HeroState) else a)
          = { a with level := a.level + qty } := if_pos (by simpa using ha)
      rw [hif]
      have h1 : List.find? (fun hs => hs.id == heroId)
          (({ a with level := a.level + qty } : HeroState) ::
            l.map (fun hs => if hs.id == heroId then { hs with level := hs.level + qty } else hs))
          = some { a with level := a.level + qty } :=
        List.find?_cons_of_pos _ (by simpa using ha)
      have h2 : List.find? (fun hs => hs.id == heroId) (a :: l) = some a :=
        List.find?_cons_of_pos _ (by simpa using ha)
      rw [h1, h2]
      rfl
    · have hif : (if a.id == heroId then ({ a with level := a.level + qty } : HeroState) else a)
          = a := if_neg (by simpa using ha)
      rw [hif]
      have h1 : List.find? (fun hs => hs.id == heroId)
          (a :: l.map (fun hs => if hs.id == heroId then { hs with level := hs.level + qty } else hs))
          = List.find? (fun hs => hs.id == heroId)
              (l.map (fun hs => if hs.id == heroId then { hs with level := hs.level + qty } else hs)) :=
        List.find?_cons_of_neg _ (by simpa using ha)
      have h2 : List.find? (fun hs => hs.id == heroId) (a :: l)
          = List.find? (fun hs => hs.id == heroId) l :=
        List.find?_cons_of_neg _ (by simpa using ha)
      rw [h1, h2, ih]

/-- Lookups for a different id see through the per-hero level bump. -/
lemma find?_levelAdd_other (l : List HeroState) (heroId qty id2 : ℤ) (hne : id2 ≠ heroId) :
    ((l.map (fun hs => if hs.id == heroId then { hs with level := hs.level + qty } else hs)).find?
        (fun hs => hs.id == id2))
      = l.find? (fun hs => hs.id == id2) := by
  induction l with
  | nil => rfl
  | cons a l ih =>
    rw [List.map_cons]
    by_cases hah : a.id = heroId
    · have hif : (if a.id == heroId then ({ a with level := a.level + qty } : HeroState) else a)
          = { a with level := a.level + qty } := if_pos (by simpa using hah)
      have hane : ¬ a.id = id2 := by rw [hah]; exact fun h => hne h.symm
      rw [hif]
      have h1 : List.find? (fun hs => hs.id == id2)
          (({ a with level := a.level + qty } : HeroState) ::
            l.map (fun hs => if hs.id == heroId then { hs with level := hs.level + qty } else hs))
          = List.find? (fun hs => hs.id == id2)
              (l.map (fun hs => if hs.id == heroId then { hs with level := hs.level + qty } else hs)) :=
        List.find?_cons_of_neg _ (by simpa using hane)
      have h2 : List.find? (fun hs => hs.id == id2) (a :: l)
          = List.find? (fun hs => hs.id == id2) l :=
        List.find?_cons_of_neg _ (by simpa using hane)
      rw [h1, h2, ih]
    · have hif : (if a.id == heroId then ({ a with level := a.level + qty } : HeroState) else a)
          = a := if_neg (by simpa using hah)
      rw [hif]
      by_cases ha2 : a.id = id2
      · have h1 : List.find? (fun hs => hs.id == id2)
            (a :: l.map (fun hs => if hs.id == heroId then { hs with level := hs.level + qty } else hs))
            = some a := List.find?_cons_of_pos _ (by simpa using ha2)
        have h2 : List.find? (fun hs => hs.id == id2) (a :: l) = some a :=
          List.find?_cons_of_pos _ (by simpa using ha2)
        rw [h1, h2]
      · have h1 : List.find? (fun hs => hs.id == id2)
            (a :: l.map (fun hs => if hs.id == heroId then { hs with level := hs.level + qty } else hs))
            = List.find? (fun hs => hs.id == id2)
                (l.map (fun hs => if hs.id == heroId then { hs with level := hs.level + qty } else hs)) :=
          List.find?_cons_of_neg _ (by simpa using ha2)
        have h2 : List.find? (fun hs => hs.id == id2) (a :: l)
            = List.find? (fun hs => hs.id == id2) l :=
          List.find?_cons_of_neg _ (by simpa using ha2)
        rw [h1, h2, ih]

lemma map_levelAdd_of_unseen (l : List HeroState) (heroId qty : ℤ)
    (h : ∀ hs ∈ l, hs.id ≠ heroId) :
    l.map (fun hs => if hs.id == heroId then { hs with level := hs.level + qty } else hs) = l := by
  induction l with
  | nil => rfl
  | cons a l ih =>
    have ha : ¬ a.id = heroId := h a (List.mem_cons_self a l)
    have hif : (if a.id == heroId then ({ a with level := a.level + qty } : HeroState) else a)
        = a := if_neg (by simpa using ha)
    rw [List.map_cons, hif, ih (fun hs hm => h hs (List.mem_cons_of_mem a hm))]

/-- C7: purchases are no-ops when gold is short of the bulk cost and otherwise deduct exactly that cost; the click upgrade adds `qty` levels, while the hero purchase adds `qty` to the matching roster entry only when one exists — with no entry the cost is still deducted and no level appears (see the counterexample) — leaving other ids and all other fields unchanged. -/
theorem purchase_spec (s : SaveData) (qty heroId : ℤ) (hero : HeroDef)
    (hfind : HEROES.find? (fun h => h.id == heroId) = some hero) :
    (s.gold < bulkCost clickBaseCost clickGrowth (s.clickLevel - 1) qty →
      buyClickUpgrade s qty = s) ∧
    (bulkCost clickBaseCost clickGrowth (s.clickLevel - 1) qty ≤ s.gold →
      buyClickUpgrade s qty
        = { s with gold := s.gold - bulkCost clickBaseCost clickGrowth (s.clickLevel - 1) qty, clickLevel := s.clickLevel + qty }) ∧
    (s.gold < bulkCost hero.baseCost hero.growth (heroLevels s heroId) qty →
      buyHeroLevels s heroId qty = s) ∧
    (bulkCost hero.baseCost hero.growth (heroLevels s heroId) qty ≤ s.gold →
      (buyHeroLevels s heroId qty).gold
          = s.gold - bulkCost hero.baseCost hero.growth (heroLevels s heroId) qty ∧
      ((∃ hs ∈ s.heroes, hs.id = heroId) →
        heroLevels (buyHeroLevels s heroId qty) heroId = heroLevels s heroId + qty) ∧
      (∀ id2, id2 ≠ heroId →
        heroLevels (buyHeroLevels s heroId qty) id2 = heroLevels s id2) ∧
      ((∀ hs ∈ s.heroes, hs.id ≠ heroId) → (buyHeroLevels s heroId qty).heroes = s.heroes) ∧
      (buyHeroLevels s heroId qty).lifetimeGold = s.lifetimeGold ∧
      (buyHeroLevels s heroId qty).clickLevel = s.clickLevel ∧
      (buyHeroLevels s heroId qty).floor = s.floor ∧
      (buyHeroLevels s heroId qty).killsThisFloor = s.killsThisFloor ∧
      (buyHeroLevels s heroId qty).enemy = s.enemy) := by
  have hbuy : buyHeroLevels s heroId qty =
      (if s.gold < bulkCost hero.baseCost hero.growth (heroLevels s heroId) qty then s
       else { s with gold := s.gold - bulkCost hero.baseCost hero.growth (heroLevels s heroId) qty, heroes := s.heroes.map (fun hs => if hs.id == heroId then { hs with level := hs.level + qty } else hs) }) := by
    unfold buyHeroLevels
    rw [hfind]
  refine ⟨?_, ?_, ?_, ?_⟩
  · intro h
    unfold buyClickUpgrade
    rw [if_pos h]
  · intro h
    unfold buyClickUpgrade
    rw [if_neg (not_lt.2 h)]
  · intro h
    rw [hbuy, if_pos h]
  · intro h
    rw [hbuy, if_neg (not_lt.2 h)]
    refine ⟨rfl, ?_, ?_, ?_, rfl, rfl, rfl, rfl, rfl⟩
    · rintro ⟨hs, hmem, hid⟩
      simp only [heroLevels]
      rw [find?_levelAdd]
      obtain ⟨x, hx⟩ : ∃ x, s.heroes.find? (fun h2 => h2.id == heroId) = some x := by
        rw [← Option.isSome_iff_exists, List.find?_isSome]
        exact ⟨hs, hmem, by simpa using hid⟩
      rw [hx]
      rfl
    · intro id2 hne
      simp only [heroLevels]
      rw [find?_levelAdd_other _ _ _ _ hne]
    · intro hnone
      exact map_levelAdd_of_unseen _ _ _ hnone

theorem buyHeroLevels_unseen_counterexample :
    heroLevels (buyHeroLevels noHeroEntryState 1 1) 1 ≠ heroLevels noHeroEntryState 1 + 1 ∧
    buyHeroLevels noHeroEntryState 1 1 ≠ noHeroEntryState := by
  have heval : buyHeroLevels noHeroEntryState 1 1
      = { noHeroEntryState with gold := 0, heroes := [] } := by
    norm_num [buyHeroLevels, noHeroEntryState, HEROES, heroLevels, bulkCost, zpow_one]
  rw [heval]
  constructor
  · norm_num [heroLevels, noHeroEntryState]
  · intro habs
    have := congrArg SaveData.gold habs
    norm_num [noHeroEntryState] at this

theorem purchase_spec_witness :
    buyHeroLevels archerState 2 1 = archerState ∧
    heroLevels (buyHeroLevels richState 2 1) 2 = heroLevels richState 2 + 1 := by
  have hfind : HEROES.find? (fun h => h.id == (2:ℤ)) = some ⟨2, 5, 250, 1.08⟩ := by
    norm_num [HEROES]
  constructor
  · refine (purchase_spec archerState 1 2 ⟨2, 5, 250, 1.08⟩ hfind).2.2.1 ?_
    norm_num [archerState, heroLevels, bulkCost, zpow_one]
  · refine ((purchase_spec richState 1 2 ⟨2, 5, 250, 1.08⟩ hfind).2.2.2 ?_).2.1 ?_
    · norm_num [richState, heroLevels, bulkCost, zpow_one]
    · exact ⟨⟨2, 1⟩, by norm_num [richState], rfl⟩

lemma killsInv_of_fields {s s' : SaveData} (h : killsInv s)
    (hk : s'.killsThisFloor = s.killsThisFloor) (he : s'.enemy = s.enemy) :
    killsInv s' := by
  refine ⟨hk ▸ h.1, fun hcap => ?_⟩
  obtain ⟨e, he2, hb⟩ := h.2 (hk ▸ hcap)
  exact ⟨e, he ▸ he2, hb⟩

lemma resolveKill_killsInv (s : SaveData) (e : Enemy) : killsInv (resolveKill s e) := by
  simp only [resolveKill]
  split_ifs with hb hk
  · exact ⟨by norm_num [killsPerFloor], fun h => absurd h (by norm_num [killsPerFloor])⟩
  · exact ⟨le_refl _, fun _ => ⟨makeEnemy s.floor true, rfl, rfl⟩⟩
  · have hlt : s.killsThisFloor + 1 < killsPerFloor := not_le.1 hk
    refine ⟨hlt.le, fun hcap => ?_⟩
    have h2 : s.killsThisFloor + 1 = killsPerFloor := hcap
    omega

lemma offKill_killsInv (a : OffAcc) (e : Enemy) : killsInv (offKill a e).s :=
  resolveKill_killsInv a.s e

lemma foldRange_offKill_killsInv (a : OffAcc) (e : Enemy) (k : ℕ) (hk : 1 ≤ k) :
    killsInv (((List.range k).foldl (fun acc _ => offKill acc e)) a).s := by
  obtain ⟨m, rfl⟩ : ∃ m, k = m + 1 := ⟨k - 1, by omega⟩
  simp only [List.range_succ, List.foldl_append, List.foldl_cons, List.foldl_nil]
  exact offKill_killsInv _ e

lemma tick_killsInv (s : SaveData) (dt : ℚ) (now : ℤ) (h : killsInv s) :
    killsInv (tick s dt now) := by
  unfold tick
  cases he : s.enemy with
  | none =>
    rw [tickAux_none _ dt (by simpa using he)]
    exact killsInv_of_fields h rfl he.symm
  | some e =>
    rw [tickAux_some _ e dt (by simpa using he)]
    split_ifs with hesc hkill
    · exact ⟨by norm_num [killsPerFloor], fun hcap => absurd hcap (by norm_num [killsPerFloor])⟩
    · exact resolveKill_killsInv _ _
    · refine ⟨h.1, fun hcap => ?_⟩
      obtain ⟨e', he', hb'⟩ := h.2 hcap
      rw [he] at he'
      cases Option.some.inj he'
      refine ⟨timerPhase dt (damagePhase (totalDps s.heroes) dt e), rfl, ?_⟩
      rw [timerPhase_isBoss, damagePhase_isBoss]
      exact hb'

lemma offlineLoop_killsInv (dps : ℚ) :
    ∀ (fuel : ℕ) (a : OffAcc) (tl : ℚ), killsInv a.s →
      killsInv ((offlineLoop dps fuel a tl).1.s) := by
  intro fuel
  induction fuel with
  | zero => intro a tl h; exact h
  | succ n ih =>
    intro a tl h
    rw [offlineLoop_succ]
    split_ifs with htl
    · cases he : a.s.enemy with
      | none => exact h
      | some e =>
        have hboss_of_cap : a.s.killsThisFloor = killsPerFloor → e.isBoss = true := by
          intro hcap
          obtain ⟨e2, he2, hb2⟩ := h.2 hcap
          rw [he] at he2
          cases Option.some.inj he2
          exact hb2
        have hfresh : killsInv { a.s with floor := max 1 (a.s.floor - 1), killsThisFloor := 0, enemy := some (makeEnemy (max 1 (a.s.floor - 1)) false) } :=
          ⟨by norm_num [killsPerFloor], fun hcap => absurd hcap (by norm_num [killsPerFloor])⟩
        simp only [offlineIter]
        split_ifs with hb hdmg hk1 hbulk hk2 hk3 hbrk
        · exact ih _ _ (offKill_killsInv a e)
        · refine ⟨h.1, fun hcap => ?_⟩
          rw [hboss_of_cap hcap] at hb
          exact absurd hb (by simp)
        · exact ih _ _ (foldRange_offKill_killsInv a e _ (by omega))
        · exact ih _ _ (offKill_killsInv a e)
        · refine ⟨h.1, fun hcap => ?_⟩
          rw [hboss_of_cap hcap] at hb
          exact absurd hb (by simp)
        · exact ih _ _ (offKill_killsInv a e)
        · exact ⟨h.1, fun hcap => ⟨_, rfl, hboss_of_cap hcap⟩⟩
        · exact ih _ _ hfresh
    · exact h

lemma simulateOfflineCore_some (s : SaveData) (seconds : ℚ) (e : Enemy)
    (he : s.enemy = some e) :
    simulateOfflineCore s seconds =
      (if totalDps s.heroes ≤ 0 ∨ seconds ≤ 0 then ((⟨s, 0, 0, 0⟩ : OffAcc), seconds)
       else offlineLoop (totalDps s.heroes) offlineSafety ⟨s, 0, 0, 0⟩ seconds) := by
  obtain ⟨g, lg, cl, fl, k, hs, en, ls⟩ := s
  cases he
  rfl

lemma simulateOfflineCore_none (s : SaveData) (seconds : ℚ) (he : s.enemy = none) :
    simulateOfflineCore s seconds =
      (if totalDps s.heroes ≤ 0 ∨ seconds ≤ 0
       then ((⟨{ s with enemy := some (makeEnemy s.floor false) }, 0, 0, 0⟩ : OffAcc), seconds)
       else offlineLoop (totalDps s.heroes) offlineSafety
         ⟨{ s with enemy := some (makeEnemy s.floor false) }, 0, 0, 0⟩ seconds) := by
  obtain ⟨g, lg, cl, fl, k, hs, en, ls⟩ := s
  cases he
  rfl

lemma simulateOffline_state (s : SaveData) (seconds : ℚ) (now : ℤ) :
    (simulateOffline s seconds now).state
      = { (simulateOfflineCore s seconds).1.s with lastSeen := now } := rfl

lemma simulateOffline_report (s : SaveData) (seconds : ℚ) (now : ℤ) :
    (simulateOffline s seconds now).report
      = { seconds := seconds, kills := (simulateOfflineCore s seconds).1.kills,
          gold := (simulateOfflineCore s seconds).1.goldEarned,
          floors := (simulateOfflineCore s seconds).1.floorsCleared } := rfl

lemma simulateOfflineCore_killsInv (s : SaveData) (seconds : ℚ) (h : killsInv s) :
    killsInv ((simulateOfflineCore s seconds).1.s) := by
  cases he : s.enemy with
  | none =>
    have hnocap : s.killsThisFloor ≠ killsPerFloor := by
      intro hcap
      obtain ⟨e2, he2, -⟩ := h.2 hcap
      rw [he] at he2
      exact Option.noConfusion he2
    have h0 : killsInv ({ s with enemy := some (makeEnemy s.floor false) } : SaveData) :=
      ⟨h.1, fun hcap => absurd hcap hnocap⟩
    rw [simulateOfflineCore_none s seconds he]
    split_ifs with hguard
    · exact h0
    · exact offlineLoop_killsInv _ _ _ _ h0
  | some e =>
    rw [simulateOfflineCore_some s seconds e he]
    split_ifs with hguard
    · exact h
    · exact offlineLoop_killsInv _ _ _ _ h

lemma simulateOffline_killsInv (s : SaveData) (seconds : ℚ) (now : ℤ)
    (h : killsInv s) : killsInv (simulateOffline s seconds now).state := by
  rw [simulateOffline_state]
  exact killsInv_of_fields (simulateOfflineCore_killsInv s seconds h) rfl rfl

lemma attack_some (s : SaveData) (e : Enemy) (he : s.enemy = some e) :
    attack s =
      (if e.hp = 0 then s
       else if max 0 (e.hp - clickDamage s.clickLevel) = 0 then
         resolveKill s { e with hp := max 0 (e.hp - clickDamage s.clickLevel) }
       else { s with enemy := some { e with hp := max 0 (e.hp - clickDamage s.clickLevel) } }) := by
  obtain ⟨g, lg, cl, fl, k, hs, en, ls⟩ := s
  cases he
  rfl

lemma attack_none (s : SaveData) (he : s.enemy = none) : attack s = s := by
  obtain ⟨g, lg, cl, fl, k, hs, en, ls⟩ := s
  cases he
  rfl

lemma attack_killsInv (s : SaveData) (h : killsInv s) : killsInv (attack s) := by
  cases he : s.enemy with
  | none => rw [attack_none s he]; exact h
  | some e =>
    rw [attack_some s e he]
    split_ifs with hdead hkill
    · exact h
    · exact resolveKill_killsInv _ _
    · refine ⟨h.1, fun hcap => ?_⟩
      obtain ⟨e2, he2, hb2⟩ := h.2 hcap
      rw [he] at he2
      cases Option.some.inj he2
      exact ⟨_, rfl, hb2⟩

lemma buyClickUpgrade_eq (s : SaveData) (qty : ℤ) :
    buyClickUpgrade s qty =
      (if s.gold < bulkCost clickBaseCost clickGrowth (s.clickLevel - 1) qty then s
       else { s with gold := s.gold - bulkCost clickBaseCost clickGrowth (s.clickLevel - 1) qty, clickLevel := s.clickLevel + qty }) := rfl

lemma buyClickUpgrade_killsInv (s : SaveData) (qty : ℤ) (h : killsInv s) :
    killsInv (buyClickUpgrade s qty) := by
  rw [buyClickUpgrade_eq]
  split_ifs
  · exact h
  · exact killsInv_of_fields h rfl rfl

lemma buyHeroLevels_eq (s : SaveData) (heroId qty : ℤ) (hero : HeroDef)
    (hf : HEROES.find? (fun h => h.id == heroId) = some hero) :
    buyHeroLevels s heroId qty =
      (if s.gold < bulkCost hero.baseCost hero.growth (heroLevels s heroId) qty then s
       else { s with gold := s.gold - bulkCost hero.baseCost hero.growth (heroLevels s heroId) qty, heroes := s.heroes.map (fun hs => if hs.id == heroId then { hs with level := hs.level + qty } else hs) }) := by
  unfold buyHeroLevels
  rw [hf]

lemma buyHeroLevels_killsInv (s : SaveData) (heroId qty : ℤ) (h : killsInv s) :
    killsInv (buyHeroLevels s heroId qty) := by
  cases hf : HEROES.find? (fun h => h.id == heroId) with
  | none =>
    unfold buyHeroLevels
    rw [hf]
    exact h
  | some hero =>
    rw [buyHeroLevels_eq s heroId qty hero hf]
    split_ifs
    · exact h
    · exact killsInv_of_fields h rfl rfl

/-- C4: every operation (tick, offline resolve, manual attack, click and hero purchases) preserves the invariant that `killsThisFloor` never exceeds `killsPerFloor` and sits at the cap only while a boss encounter is active. -/
theorem killsInv_preserved (s : SaveData) (dt seconds : ℚ) (now qty heroId : ℤ)
    (h : killsInv s) :
    killsInv (tick s dt now) ∧ killsInv (simulateOffline s seconds now).state ∧
    killsInv (attack s) ∧ killsInv (buyClickUpgrade s qty) ∧
    killsInv (buyHeroLevels s heroId qty) :=
  ⟨tick_killsInv s dt now h, simulateOffline_killsInv s seconds now h,
   attack_killsInv s h, buyClickUpgrade_killsInv s qty h,
   buyHeroLevels_killsInv s heroId qty h⟩

theorem killsInv_preserved_witness :
    killsInv (tick archerState 3 7) ∧
    killsInv (simulateOffline archerState 2 7).state ∧
    killsInv (attack archerState) ∧ killsInv (buyClickUpgrade archerState 1) ∧
    killsInv (buyHeroLevels archerState 1 1) :=
  killsInv_preserved archerState 3 2 7 1 1
    ⟨by norm_num [archerState, killsPerFloor],
     fun hcap => absurd hcap (by norm_num [archerState, killsPerFloor])⟩

lemma offAccR_refl (a : OffAcc) : offAccR a a :=
  ⟨rfl, rfl, le_refl _, by omega⟩

lemma offAccR_trans {a b c : OffAcc} (h1 : offAccR a b) (h2 : offAccR b c) :
    offAccR a c := by
  obtain ⟨g1, l1, f1, k1⟩ := h1
  obtain ⟨g2, l2, f2, k2⟩ := h2
  exact ⟨by linarith, by linarith, le_trans f1 f2, by omega⟩

lemma offAccR_offKill (a : OffAcc) (e : Enemy) : offAccR a (offKill a e) := by
  refine ⟨?_, ?_, ?_, ?_⟩
  · show (resolveKill a.s e).gold - (a.goldEarned + goldRewardFor e a.s.floor) = _
    rw [resolveKill_gold]
    ring
  · show (resolveKill a.s e).lifetimeGold - (a.goldEarned + goldRewardFor e a.s.floor) = _
    rw [resolveKill_lifetimeGold]
    ring
  · show a.floorsCleared ≤ a.floorsCleared + (if e.isBoss = true then 1 else 0)
    split_ifs <;> omega
  · show a.floorsCleared + (if e.isBoss = true then 1 else 0) - a.floorsCleared
      ≤ a.kills + 1 - a.kills
    split_ifs <;> omega

lemma offAccR_setState (a : OffAcc) (s' : SaveData)
    (hg : s'.gold = a.s.gold) (hl : s'.lifetimeGold = a.s.lifetimeGold) :
    offAccR a { a with s := s' } :=
  ⟨by show s'.gold - a.goldEarned = _; rw [hg],
   by show s'.lifetimeGold - a.goldEarned = _; rw [hl],
   le_refl _, by show a.floorsCleared - a.floorsCleared ≤ a.kills - a.kills; omega⟩

lemma offAccR_foldRange (a : OffAcc) (e : Enemy) (k : ℕ) :
    offAccR a ((List.range k).foldl (fun acc _ => offKill acc e) a) := by
  induction k with
  | zero => exact offAccR_refl a
  | succ m ih =>
    simp only [List.range_succ, List.foldl_append, List.foldl_cons, List.foldl_nil]
    exact offAccR_trans ih (offAccR_offKill _ e)

lemma offlineLoop_offAccR (dps : ℚ) :
    ∀ (fuel : ℕ) (a : OffAcc) (tl : ℚ), offAccR a ((offlineLoop dps fuel a tl).1) := by
  intro fuel
  induction fuel with
  | zero => intro a tl; exact offAccR_refl a
  | succ n ih =>
    intro a tl
    rw [offlineLoop_succ]
    split_ifs with htl
    · cases he : a.s.enemy with
      | none => exact offAccR_refl a
      | some e =>
        simp only [offlineIter]
        split_ifs with hb hdmg hk1 hbulk hk2 hk3 hbrk
        · exact offAccR_trans (offAccR_offKill a e) (ih _ _)
        · exact offAccR_setState a _ rfl rfl
        · exact offAccR_trans (offAccR_foldRange a e _) (ih _ _)
        · exact offAccR_trans (offAccR_offKill a e) (ih _ _)
        · exact offAccR_setState a _ rfl rfl
        · exact offAccR_trans (offAccR_offKill a e) (ih _ _)
        · exact offAccR_setState a _ rfl rfl
        · exact offAccR_trans (offAccR_setState a _ rfl rfl) (ih _ _)
    · exact offAccR_refl a

lemma asym_step1 :
    offlineIter 1 ⟨asymState, 0, 0, 0⟩ 351 ⟨120, 1, true, some 30⟩
      = .inr (asymAcc1, 350) := by
  norm_num [offlineIter, offKill, resolveKill, goldRewardFor, makeEnemy, asymState,
    asymAcc1, killsPerFloor, perKillGoldPct, bossGoldMultiplier, bossTimeSeconds,
    enemyBaseHp, floorGrowth, bossMultiplier, zpow_one]

lemma asym_step2 :
    offlineIter 1 asymAcc1 350 ⟨16, 16, false, none⟩ = .inr (asymAcc2, 30) := by
  have hrange : List.range 20 = [0,1,2,3,4,5,6,7,8,9,10,11,12,13,14,15,16,17,18,19] := rfl
  have ht : (20:ℤ).toNat = 20 := rfl
  norm_num [offlineIter, ht, hrange, offKill, resolveKill, goldRewardFor, makeEnemy,
    asymAcc1, asymAcc2, killsPerFloor, perKillGoldPct, bossGoldMultiplier,
    bossTimeSeconds, enemyBaseHp, floorGrowth, bossMultiplier, zpow_one]

lemma asym_step3 :
    offlineIter 1 asymAcc2 30 ⟨192, 192, true, some 30⟩ = .inr (asymAcc3, 0) := by
  norm_num [offlineIter, offKill, resolveKill, goldRewardFor, makeEnemy, asymAcc2,
    asymAcc3, killsPerFloor, perKillGoldPct, bossGoldMultiplier, bossTimeSeconds,
    enemyBaseHp, floorGrowth, bossMultiplier, zpow_one]

lemma asym_core : simulateOfflineCore asymState 351 = (asymAcc3, 0) := by
  rw [simulateOfflineCore_some asymState 351 ⟨120, 1, true, some 30⟩ rfl]
  have hdps : totalDps asymState.heroes = 1 := by
    norm_num [totalDps, asymState, heroBaseDps, HEROES]
  rw [hdps, if_neg (by norm_num)]
  rw [show offlineSafety = 199999 + 1 from rfl,
    offlineLoop_cont 1 199999 _ _ 351 350 ⟨120, 1, true, some 30⟩ (by norm_num) rfl asym_step1]
  rw [show (199999:ℕ) = 199998 + 1 from rfl,
    offlineLoop_cont 1 199998 _ _ 350 30 ⟨16, 16, false, none⟩ (by norm_num) rfl asym_step2]
  rw [show (199998:ℕ) = 199997 + 1 from rfl,
    offlineLoop_cont 1 199997 _ _ 30 0 ⟨192, 192, true, some 30⟩ (by norm_num) rfl asym_step3]
  exact offlineLoop_nonpos 1 199997 asymAcc3 0 (by norm_num)

/-- C10: the offline report is consistent with the state change it accompanies: the reported gold equals the gold (and lifetime gold) added to the state, the reported floors are nonnegative and at most the reported kills, and in the boss-escape scenario the report counts 1 floor cleared while the floor of the final state is back where it started. -/
theorem offline_report_consistency (s : SaveData) (seconds : ℚ) (now : ℤ) :
    ((simulateOffline s seconds now).report.gold
        = (simulateOffline s seconds now).state.gold - s.gold ∧
     (simulateOffline s seconds now).report.gold
        = (simulateOffline s seconds now).state.lifetimeGold - s.lifetimeGold ∧
     0 ≤ (simulateOffline s seconds now).report.floors ∧
     (simulateOffline s seconds now).report.floors
        ≤ (simulateOffline s seconds now).report.kills) ∧
    ((simulateOffline asymState 351 0).report.floors = 1 ∧
     (simulateOffline asymState 351 0).state.floor = asymState.floor) := by
  constructor
  · rw [simulateOffline_state, simulateOffline_report]
    have key : ∀ (s0 : SaveData), s0.gold = s.gold → s0.lifetimeGold = s.lifetimeGold →
        ∀ r : OffAcc × ℚ, offAccR ⟨s0, 0, 0, 0⟩ r.1 →
        (r.1.goldEarned = r.1.s.gold - s.gold ∧
         r.1.goldEarned = r.1.s.lifetimeGold - s.lifetimeGold ∧
         0 ≤ r.1.floorsCleared ∧ r.1.floorsCleared ≤ r.1.kills) := by
      rintro s0 hg hl r ⟨h1, h2, h3, h4⟩
      simp only at h1 h2 h3 h4
      refine ⟨by rw [← hg]; linarith, by rw [← hl]; linarith, by simpa using h3, by simpa using h4⟩
    cases he : s.enemy with
    | none =>
      rw [simulateOfflineCore_none s seconds he]
      split_ifs with hguard
      · norm_num
      · exact key _ rfl rfl _ (offlineLoop_offAccR _ _ _ _)
    | some e =>
      rw [simulateOfflineCore_some s seconds e he]
      split_ifs with hguard
      · norm_num
      · exact key _ rfl rfl _ (offlineLoop_offAccR _ _ _ _)
  · rw [simulateOffline_state, simulateOffline_report, asym_core]
    norm_num [asymAcc3, asymState]

lemma makeEnemy_maxHp_pos (f : ℤ) (b : Bool) : 0 < (makeEnemy f b).maxHp := by
  unfold makeEnemy
  have hpow : 0 < floorGrowth ^ (f - 1) := zpow_pos (by norm_num [floorGrowth]) _
  cases b
  · simpa [enemyBaseHp] using by positivity
  · simp only []
    norm_num [enemyBaseHp, bossMultiplier]
    positivity

lemma enemyWF_makeEnemy (f : ℤ) (b : Bool) : enemyWF f (makeEnemy f b) := by
  refine ⟨?_, le_refl _, ?_, ?_⟩
  · exact makeEnemy_maxHp_pos f b
  · rfl
  · intro hb
    cases b
    · exact absurd hb (by norm_num [makeEnemy])
    · exact ⟨bossTimeSeconds, rfl, by norm_num [bossTimeSeconds]⟩

lemma stateWF_resolveKill (s : SaveData) (e : Enemy) : stateWF (resolveKill s e) := by
  simp only [resolveKill]
  split_ifs with hb hk
  · exact ⟨makeEnemy (s.floor + 1) false, rfl, enemyWF_makeEnemy _ _⟩
  · exact ⟨makeEnemy s.floor true, rfl, enemyWF_makeEnemy _ _⟩
  · exact ⟨makeEnemy s.floor false, rfl, enemyWF_makeEnemy _ _⟩

lemma resolveKill_floor_regular (s : SaveData) (e : Enemy) (hb : e.isBoss = false) :
    (resolveKill s e).floor = s.floor := by
  simp only [resolveKill]
  rw [if_neg (by rw [hb]; simp)]
  split_ifs <;> rfl

lemma foldRange_const (f : SaveData → SaveData) (s : SaveData) :
    ∀ k : ℕ, (List.range k).foldl (fun st _ => f st) s = f^[k] s := by
  intro k
  induction k with
  | zero => rfl
  | succ m ih =>
    simp only [List.range_succ, List.foldl_append, List.foldl_cons, List.foldl_nil]
    rw [ih, ← Function.iterate_succ_apply' f m s]

lemma foldRange_offKill_s (a : OffAcc) (e : Enemy) (k : ℕ) :
    (((List.range k).foldl (fun acc _ => offKill acc e)) a).s
      = (fun st => resolveKill st e)^[k] a.s := by
  rw [← foldRange_const]
  induction k with
  | zero => rfl
  | succ m ih =>
    simp only [List.range_succ, List.foldl_append, List.foldl_cons, List.foldl_nil]
    rw [← ih]
    rfl

lemma iterate_resolveKill_heroes (e : Enemy) (s : SaveData) (k : ℕ) :
    ((fun st => resolveKill st e)^[k] s).heroes = s.heroes := by
  induction k with
  | zero => rfl
  | succ m ih => rw [Function.iterate_succ_apply' _ m s, resolveKill_heroes, ih]

lemma stateWF_iterate_resolveKill (e : Enemy) (s : SaveData) (k : ℕ) (hk : 1 ≤ k) :
    stateWF ((fun st => resolveKill st e)^[k] s) := by
  obtain ⟨m, rfl⟩ : ∃ m, k = m + 1 := ⟨k - 1, by omega⟩
  rw [Function.iterate_succ_apply' _ m s]
  exact stateWF_resolveKill _ e

/-- Chop a positive length `L` into equal pieces of size at most `ε`. -/
lemma subdiv (L ε : ℚ) (hL : 0 < L) (hε : 0 < ε) :
    ∃ (n : ℕ) (d : ℚ), 1 ≤ n ∧ 0 < d ∧ d ≤ ε ∧ (n : ℚ) * d = L := by
  have hceil : (1:ℤ) ≤ ⌈L / ε⌉ := by
    rw [Int.le_ceil_iff]
    norm_num
    positivity
  set n : ℕ := ⌈L / ε⌉.toNat with hn
  have hn1 : 1 ≤ n := by omega
  have hnpos : (0:ℚ) < (n:ℚ) := by exact_mod_cast Nat.lt_of_lt_of_le Nat.zero_lt_one hn1
  refine ⟨n, L / n, hn1, by positivity, ?_, ?_⟩
  · rw [div_le_iff₀ hnpos]
    have h1 : ((n:ℕ):ℤ) = ⌈L / ε⌉ := Int.toNat_of_nonneg (by omega)
    have hcast : ((n:ℚ)) = ((⌈L / ε⌉ : ℤ) : ℚ) := by exact_mod_cast congrArg (fun z : ℤ => (z:ℚ)) h1
    have hle : L / ε ≤ ((⌈L / ε⌉ : ℤ) : ℚ) := Int.le_ceil _
    calc L = ε * (L / ε) := by field_simp
    _ ≤ ε * ((⌈L / ε⌉ : ℤ) : ℚ) := mul_le_mul_of_nonneg_left hle hε.le
    _ = ε * (n:ℚ) := by rw [hcast]
  · field_simp

/-- Eventless step on a regular encounter: damage is applied, nothing else. -/
lemma tick_noevent_regular (s : SaveData) (e : Enemy) (dt : ℚ) (now : ℤ)
    (he : s.enemy = some e) (hb : e.isBoss = false) (hdps : 0 < totalDps s.heroes)
    (hdt : 0 ≤ dt) (hsafe : totalDps s.heroes * dt < e.hp) :
    tick s dt now = { s with lastSeen := now, enemy := some { e with hp := e.hp - totalDps s.heroes * dt } } := by
  have hhp : 0 < e.hp := lt_of_le_of_lt (by positivity) hsafe
  unfold tick
  rw [tickAux_some _ e dt (by simpa using he)]
  rw [damagePhase_pos _ _ _ ⟨hdps, hhp⟩, max_eq_right (by linarith)]
  rw [timerPhase_of_not_boss _ _ (by rw [show ({ e with hp := e.hp - totalDps s.heroes * dt } : Enemy).isBoss = e.isBoss from rfl]; exact hb)]
  rw [if_neg (by rintro ⟨hb2, -, -⟩; rw [show ({ e with hp := e.hp - totalDps s.heroes * dt } : Enemy).isBoss = e.isBoss from rfl] at hb2; rw [hb] at hb2; exact Bool.false_ne_true hb2)]
  rw [if_neg (by show ¬ (e.hp - totalDps s.heroes * dt = 0); intro habs; linarith)]

/-- Eventless step on a boss: damage and timer decrement only. -/
lemma tick_noevent_boss (s : SaveData) (e : Enemy) (t dt : ℚ) (now : ℤ)
    (he : s.enemy = some e) (hb : e.isBoss = true) (ht : e.bossTimeLeft = some t)
    (hdps : 0 < totalDps s.heroes) (hdt : 0 ≤ dt)
    (hsafe : totalDps s.heroes * dt < e.hp) (htl : dt < t) :
    tick s dt now = { s with lastSeen := now, enemy := some { e with hp := e.hp - totalDps s.heroes * dt, bossTimeLeft := some (t - dt) } } := by
  have hhp : 0 < e.hp := lt_of_le_of_lt (by positivity) hsafe
  unfold tick
  rw [tickAux_some _ e dt (by simpa using he)]
  rw [damagePhase_pos _ _ _ ⟨hdps, hhp⟩, max_eq_right (by linarith)]
  rw [timerPhase_boss dt _ t (by exact hb) (by exact ht)]
  rw [max_eq_right (by linarith)]
  rw [if_neg ?_]
  · rw [if_neg (by show ¬ (e.hp - totalDps s.heroes * dt = 0); intro habs; linarith)]
  · rintro ⟨-, ht2, -⟩
    simp only [Option.some.injEq] at ht2
    linarith

lemma stripTime_stamp (s : SaveData) (x : ℤ) :
    stripTime { s with lastSeen := x } = stripTime s := rfl

lemma tickFold_replicate_regular (n : ℕ) :
    ∀ (s : SaveData) (e : Enemy) (d : ℚ) (now : ℤ),
      s.enemy = some e → e.isBoss = false → 0 < totalDps s.heroes → 0 < d →
      totalDps s.heroes * ((n : ℚ) * d) < e.hp →
      stripTime (tickFold s (List.replicate n d) now)
        = stripTime { s with enemy := some { e with hp := e.hp - totalDps s.heroes * ((n : ℚ) * d) } } := by
  induction n with
  | zero =>
    intro s e d now he hb hdps hd hsafe
    have h0 : ({ s with enemy := some { e with hp := e.hp - totalDps s.heroes * (((0:ℕ) : ℚ) * d) } } : SaveData) = s := by
      have harith : e.hp - totalDps s.heroes * (((0:ℕ) : ℚ) * d) = e.hp := by push_cast; ring
      rw [harith]
      exact set_enemy_eta s e he
    rw [h0]
    rfl
  | succ m ih =>
    intro s e d now he hb hdps hd hsafe
    have hstep : totalDps s.heroes * d < e.hp := by
      have h1 : totalDps s.heroes * d ≤ totalDps s.heroes * (((m:ℚ) + 1) * d) := by
        have : d ≤ ((m:ℚ) + 1) * d := by nlinarith [Nat.cast_nonneg (α := ℚ) m]
        exact mul_le_mul_of_nonneg_left this hdps.le
      calc totalDps s.heroes * d ≤ totalDps s.heroes * (((m:ℚ) + 1) * d) := h1
      _ = totalDps s.heroes * (((m+1:ℕ) : ℚ) * d) := by push_cast; ring
      _ < e.hp := hsafe
    rw [List.replicate_succ, tickFold_cons,
      tick_noevent_regular s e d now he hb hdps hd.le hstep]
    have hih := ih { s with lastSeen := now, enemy := some { e with hp := e.hp - totalDps s.heroes * d } }
      { e with hp := e.hp - totalDps s.heroes * d } d now rfl hb hdps hd ?_
    · rw [hih]
      simp only [stripTime, SaveData.mk.injEq, Option.some.injEq, Enemy.mk.injEq,
        and_true, true_and]
      push_cast
      ring
    · show totalDps s.heroes * ((m:ℚ) * d) < e.hp - totalDps s.heroes * d
      have : totalDps s.heroes * (((m+1:ℕ) : ℚ) * d) = totalDps s.heroes * d + totalDps s.heroes * ((m:ℚ) * d) := by push_cast; ring
      linarith [hsafe, this ▸ hsafe]

lemma tickFold_replicate_boss (n : ℕ) :
    ∀ (s : SaveData) (e : Enemy) (t d : ℚ) (now : ℤ),
      s.enemy = some e → e.isBoss = true → e.bossTimeLeft = some t →
      0 < totalDps s.heroes → 0 < d →
      totalDps s.heroes * ((n : ℚ) * d) < e.hp → (n : ℚ) * d < t →
      stripTime (tickFold s (List.replicate n d) now)
        = stripTime { s with enemy := some { e with hp := e.hp - totalDps s.heroes * ((n : ℚ) * d), bossTimeLeft := some (t - (n : ℚ) * d) } } := by
  induction n with
  | zero =>
    intro s e t d now he hb ht hdps hd hsafe htime
    have h0 : ({ s with enemy := some { e with hp := e.hp - totalDps s.heroes * (((0:ℕ) : ℚ) * d), bossTimeLeft := some (t - ((0:ℕ) : ℚ) * d) } } : SaveData) = s := by
      have h1 : e.hp - totalDps s.heroes * (((0:ℕ) : ℚ) * d) = e.hp := by push_cast; ring
      have h2 : t - ((0:ℕ) : ℚ) * d = t := by push_cast; ring
      rw [h1, h2, ← ht]
      exact set_enemy_eta s e he
    rw [h0]
    rfl
  | succ m ih =>
    intro s e t d now he hb ht hdps hd hsafe htime
    have hcast : (((m+1:ℕ)) : ℚ) = (m:ℚ) + 1 := by push_cast; ring
    rw [hcast] at hsafe htime
    have hexp : totalDps s.heroes * (((m:ℚ) + 1) * d)
        = totalDps s.heroes * d + totalDps s.heroes * ((m:ℚ) * d) := by ring
    have hexp2 : ((m:ℚ) + 1) * d = d + (m:ℚ) * d := by ring
    rw [hexp] at hsafe
    rw [hexp2] at htime
    have hmd : 0 ≤ totalDps s.heroes * ((m:ℚ) * d) := by positivity
    have hmd2 : 0 ≤ (m:ℚ) * d := by positivity
    have hstep : totalDps s.heroes * d < e.hp := by linarith
    have hstept : d < t := by linarith
    rw [List.replicate_succ, tickFold_cons,
      tick_noevent_boss s e t d now he hb ht hdps hd.le hstep hstept]
    have hih := ih { s with lastSeen := now, enemy := some { e with hp := e.hp - totalDps s.heroes * d, bossTimeLeft := some (t - d) } }
      { e with hp := e.hp - totalDps s.heroes * d, bossTimeLeft := some (t - d) }
      (t - d) d now rfl hb rfl hdps hd (by show totalDps s.heroes * ((m:ℚ) * d) < e.hp - totalDps s.heroes * d; linarith)
      (by show (m:ℚ) * d < t - d; linarith)
    rw [hih]
    simp only [stripTime, SaveData.mk.injEq, Option.some.injEq, Enemy.mk.injEq,
      and_true, true_and]
    constructor
    · push_cast; ring
    · push_cast; ring

lemma tickFold_singleton (s : SaveData) (d : ℚ) (now : ℤ) :
    tickFold s [d] now = tick s d now := rfl

/-- Kill segment: the exact time-to-kill of the current encounter can be
chopped into dts of size at most ε whose tick-fold performs the kill. -/
lemma tickSeq_kill (s : SaveData) (e : Enemy) (now : ℤ) (ε : ℚ)
    (he : s.enemy = some e) (hdps : 0 < totalDps s.heroes) (hhp : 0 < e.hp)
    (hbt : e.isBoss = true → ∃ t, e.bossTimeLeft = some t ∧ e.hp / totalDps s.heroes ≤ t)
    (hε : 0 < ε) :
    ∃ dts : List ℚ, (∀ d ∈ dts, 0 < d ∧ d ≤ ε) ∧
      dts.sum = e.hp / totalDps s.heroes ∧
      stripTime (tickFold s dts now) = stripTime (resolveKill s e) := by
  have hL : 0 < e.hp / totalDps s.heroes := by positivity
  obtain ⟨n, d, hn1, hd, hdε, hnd⟩ := subdiv (e.hp / totalDps s.heroes) ε hL hε
  obtain ⟨m, rfl⟩ : ∃ m, n = m + 1 := ⟨n - 1, by omega⟩
  refine ⟨List.replicate (m + 1) d, ?_, ?_, ?_⟩
  · intro x hx
    rw [List.mem_replicate] at hx
    rw [hx.2]
    exact ⟨hd, hdε⟩
  · rw [List.sum_replicate, nsmul_eq_mul, hnd]
  · have hhp_eq : e.hp = totalDps s.heroes * (((m:ℚ) + 1) * d) := by
      have h1 : totalDps s.heroes * (e.hp / totalDps s.heroes) = e.hp := by field_simp
      rw [← h1, ← hnd]
      push_cast
      ring
    have hposd : 0 < totalDps s.heroes * d := mul_pos hdps hd
    rw [List.replicate_succ', tickFold_append]
    have hpre : stripTime (tickFold s (List.replicate m d) now)
        = stripTime { s with enemy := some { e with hp := e.hp - totalDps s.heroes * ((m:ℚ) * d) } } ∨
        (e.isBoss = true ∧ ∃ t, e.bossTimeLeft = some t ∧
          stripTime (tickFold s (List.replicate m d) now)
            = stripTime { s with enemy := some { e with hp := e.hp - totalDps s.heroes * ((m:ℚ) * d), bossTimeLeft := some (t - (m:ℚ) * d) } }) := by
      by_cases hbE : e.isBoss = true
      · right
        obtain ⟨t, ht, hLt⟩ := hbt hbE
        refine ⟨hbE, t, ht, ?_⟩
        refine tickFold_replicate_boss m s e t d now he hbE ht hdps hd
          (by rw [hhp_eq]; nlinarith [hposd]) ?_
        calc (m:ℚ) * d < ((m:ℚ) + 1) * d := by nlinarith [hd]
        _ = e.hp / totalDps s.heroes := by rw [← hnd]; push_cast; ring
        _ ≤ t := hLt
      · left
        exact tickFold_replicate_regular m s e d now he (by simpa using hbE) hdps hd
          (by rw [hhp_eq]; nlinarith [hposd])
    rcases hpre with hpre | ⟨hbE, t, ht, hpre⟩
    · rw [tickFold_congr [d] now hpre, tickFold_singleton]
      have hk := tick_kill { s with enemy := some { e with hp := e.hp - totalDps s.heroes * ((m:ℚ) * d) } } d now
        { e with hp := e.hp - totalDps s.heroes * ((m:ℚ) * d) } rfl hdps
        (by show 0 < e.hp - totalDps s.heroes * ((m:ℚ) * d); rw [hhp_eq]; nlinarith [hposd])
        (le_of_eq (by show e.hp - totalDps s.heroes * ((m:ℚ) * d) = totalDps s.heroes * d; rw [hhp_eq]; ring))
      rw [hk]
      rw [resolveKill_eqOn _ { e with hp := e.hp - totalDps s.heroes * ((m:ℚ) * d) } e rfl rfl]
      have her := resolveKill_erase s e s.lastSeen (some { e with hp := e.hp - totalDps s.heroes * ((m:ℚ) * d) })
      rw [show ({ s with enemy := some { e with hp := e.hp - totalDps s.heroes * ((m:ℚ) * d) } } : SaveData) = { s with lastSeen := s.lastSeen, enemy := some { e with hp := e.hp - totalDps s.heroes * ((m:ℚ) * d) } } from rfl, her]
      rfl
    · rw [tickFold_congr [d] now hpre, tickFold_singleton]
      have hk := tick_kill { s with enemy := some { e with hp := e.hp - totalDps s.heroes * ((m:ℚ) * d), bossTimeLeft := some (t - (m:ℚ) * d) } } d now
        { e with hp := e.hp - totalDps s.heroes * ((m:ℚ) * d), bossTimeLeft := some (t - (m:ℚ) * d) } rfl hdps
        (by show 0 < e.hp - totalDps s.heroes * ((m:ℚ) * d); rw [hhp_eq]; nlinarith [hposd])
        (le_of_eq (by show e.hp - totalDps s.heroes * ((m:ℚ) * d) = totalDps s.heroes * d; rw [hhp_eq]; ring))
      rw [hk]
      rw [resolveKill_eqOn _ { e with hp := e.hp - totalDps s.heroes * ((m:ℚ) * d), bossTimeLeft := some (t - (m:ℚ) * d) } e rfl rfl]
      have her := resolveKill_erase s e s.lastSeen (some { e with hp := e.hp - totalDps s.heroes * ((m:ℚ) * d), bossTimeLeft := some (t - (m:ℚ) * d) })
      rw [show ({ s with enemy := some { e with hp := e.hp - totalDps s.heroes * ((m:ℚ) * d), bossTimeLeft := some (t - (m:ℚ) * d) } } : SaveData) = { s with lastSeen := s.lastSeen, enemy := some { e with hp := e.hp - totalDps s.heroes * ((m:ℚ) * d), bossTimeLeft := some (t - (m:ℚ) * d) } } from rfl, her]
      rfl

/-- Escape segment: consuming exactly the boss timer with small ticks ends
in the boss-escape transition. -/
lemma tickSeq_escape (s : SaveData) (e : Enemy) (t : ℚ) (now : ℤ) (ε : ℚ)
    (he : s.enemy = some e) (hb : e.isBoss = true) (ht : e.bossTimeLeft = some t)
    (htpos : 0 < t) (hdps : 0 < totalDps s.heroes)
    (hhp : totalDps s.heroes * t < e.hp) (hε : 0 < ε) :
    ∃ dts : List ℚ, (∀ d ∈ dts, 0 < d ∧ d ≤ ε) ∧ dts.sum = t ∧
      stripTime (tickFold s dts now)
        = stripTime { s with floor := max 1 (s.floor - 1), killsThisFloor := 0, enemy := some (makeEnemy (max 1 (s.floor - 1)) false) } := by
  obtain ⟨n, d, hn1, hd, hdε, hnd⟩ := subdiv t ε htpos hε
  obtain ⟨m, rfl⟩ : ∃ m, n = m + 1 := ⟨n - 1, by omega⟩
  have hcast : (((m+1:ℕ)) : ℚ) = (m:ℚ) + 1 := by push_cast; ring
  rw [hcast] at hnd
  have hposd : 0 < totalDps s.heroes * d := mul_pos hdps hd
  have hmd0 : (0:ℚ) ≤ (m:ℚ) * d := by positivity
  have hmdlt : (m:ℚ) * d < t := by nlinarith
  have hhp0 : 0 < e.hp := by nlinarith
  refine ⟨List.replicate (m + 1) d, ?_, ?_, ?_⟩
  · intro x hx
    rw [List.mem_replicate] at hx
    rw [hx.2]
    exact ⟨hd, hdε⟩
  · rw [List.sum_replicate, nsmul_eq_mul, hcast, hnd]
  · rw [List.replicate_succ', tickFold_append]
    have hpre := tickFold_replicate_boss m s e t d now he hb ht hdps hd
      (by nlinarith) hmdlt
    rw [tickFold_congr [d] now hpre, tickFold_singleton]
    have hesc := tick_escape { s with enemy := some { e with hp := e.hp - totalDps s.heroes * ((m:ℚ) * d), bossTimeLeft := some (t - (m:ℚ) * d) } } d now
      { e with hp := e.hp - totalDps s.heroes * ((m:ℚ) * d), bossTimeLeft := some (t - (m:ℚ) * d) } (t - (m:ℚ) * d) rfl hb rfl
      (by show t - (m:ℚ) * d ≤ d; nlinarith)
      (by show 0 < e.hp - totalDps s.heroes * ((m:ℚ) * d); nlinarith)
      (by show totalDps s.heroes * d < e.hp - totalDps s.heroes * ((m:ℚ) * d); nlinarith)
    rw [hesc]
    rfl

/-- Partial-damage segment on a regular encounter. -/
lemma tickSeq_partial_regular (s : SaveData) (e : Enemy) (R : ℚ) (now : ℤ) (ε : ℚ)
    (he : s.enemy = some e) (hb : e.isBoss = false) (hdps : 0 < totalDps s.heroes)
    (hR : 0 < R) (hsafe : totalDps s.heroes * R < e.hp) (hε : 0 < ε) :
    ∃ dts : List ℚ, (∀ d ∈ dts, 0 < d ∧ d ≤ ε) ∧ dts.sum = R ∧
      stripTime (tickFold s dts now)
        = stripTime { s with enemy := some { e with hp := e.hp - totalDps s.heroes * R } } := by
  obtain ⟨n, d, hn1, hd, hdε, hnd⟩ := subdiv R ε hR hε
  refine ⟨List.replicate n d, ?_, ?_, ?_⟩
  · intro x hx
    rw [List.mem_replicate] at hx
    rw [hx.2]
    exact ⟨hd, hdε⟩
  · rw [List.sum_replicate, nsmul_eq_mul, hnd]
  · have h := tickFold_replicate_regular n s e d now he hb hdps hd (by rw [hnd]; exact hsafe)
    rw [h, hnd]

/-- Partial-damage segment on a boss (timer keeps running). -/
lemma tickSeq_partial_boss (s : SaveData) (e : Enemy) (t R : ℚ) (now : ℤ) (ε : ℚ)
    (he : s.enemy = some e) (hb : e.isBoss = true) (ht : e.bossTimeLeft = some t)
    (hdps : 0 < totalDps s.heroes) (hR : 0 < R) (hRt : R < t)
    (hsafe : totalDps s.heroes * R < e.hp) (hε : 0 < ε) :
    ∃ dts : List ℚ, (∀ d ∈ dts, 0 < d ∧ d ≤ ε) ∧ dts.sum = R ∧
      stripTime (tickFold s dts now)
        = stripTime { s with enemy := some { e with hp := e.hp - totalDps s.heroes * R, bossTimeLeft := some (t - R) } } := by
  obtain ⟨n, d, hn1, hd, hdε, hnd⟩ := subdiv R ε hR hε
  refine ⟨List.replicate n d, ?_, ?_, ?_⟩
  · intro x hx
    rw [List.mem_replicate] at hx
    rw [hx.2]
    exact ⟨hd, hdε⟩
  · rw [List.sum_replicate, nsmul_eq_mul, hnd]
  · have h := tickFold_replicate_boss n s e t d now he hb ht hdps hd
      (by rw [hnd]; exact hsafe) (by rw [hnd]; exact hRt)
    rw [h, hnd]

lemma resolveKill_regular_nocap (s : SaveData) (e : Enemy) (hb : e.isBoss = false)
    (hk : ¬ killsPerFloor ≤ s.killsThisFloor + 1) :
    resolveKill s e = { s with gold := s.gold + goldRewardFor e s.floor, lifetimeGold := s.lifetimeGold + goldRewardFor e s.floor, killsThisFloor := s.killsThisFloor + 1, enemy := some (makeEnemy s.floor false) } := by
  simp only [resolveKill]
  rw [if_neg (by rw [hb]; simp), if_neg hk]

/-- Bulk segment: `m` consecutive kills of full-health regular encounters,
all sharing the factory stats of the current floor, are realised by
concatenating `m` kill segments. -/
lemma tickSeq_bulk : ∀ (m : ℕ) (s : SaveData) (e : Enemy) (now : ℤ) (ε : ℚ),
    s.enemy = some e → e.isBoss = false → e.hp = e.maxHp →
    e.maxHp = (makeEnemy s.floor false).maxHp → 0 < totalDps s.heroes → 0 < ε →
    s.killsThisFloor + (m : ℤ) ≤ killsPerFloor →
    ∃ dts : List ℚ, (∀ d ∈ dts, 0 < d ∧ d ≤ ε) ∧
      dts.sum = (m : ℚ) * (e.maxHp / totalDps s.heroes) ∧
      stripTime (tickFold s dts now)
        = stripTime ((fun st => resolveKill st e)^[m] s) := by
  intro m
  induction m with
  | zero =>
    intro s e now ε he hb hfull hstd hdps hε hcap
    refine ⟨[], by simp, by push_cast; simp, rfl⟩
  | succ k ih =>
    intro s e now ε he hb hfull hstd hdps hε hcap
    have hbt : e.isBoss = true → ∃ t, e.bossTimeLeft = some t ∧ e.hp / totalDps s.heroes ≤ t := by
      intro habs
      rw [hb] at habs
      exact absurd habs (by simp)
    obtain ⟨dts1, hmem1, hsum1, hfold1⟩ := tickSeq_kill s e now ε he hdps
      (by rw [hfull]; rw [hstd]; exact makeEnemy_maxHp_pos _ _) hbt hε
    cases k with
    | zero =>
      refine ⟨dts1, hmem1, ?_, ?_⟩
      · rw [hsum1, hfull]
        norm_num
      · rw [hfold1]
        rfl
    | succ k2 =>
      have hnocap : ¬ killsPerFloor ≤ s.killsThisFloor + 1 := by
        push_cast at hcap
        omega
      have hs2 : resolveKill s e = { s with gold := s.gold + goldRewardFor e s.floor, lifetimeGold := s.lifetimeGold + goldRewardFor e s.floor, killsThisFloor := s.killsThisFloor + 1, enemy := some (makeEnemy s.floor false) } :=
        resolveKill_regular_nocap s e hb hnocap
      have he2 : (resolveKill s e).enemy = some (makeEnemy s.floor false) := by rw [hs2]
      have hb2 : (makeEnemy s.floor false).isBoss = false := rfl
      have hfull2 : (makeEnemy s.floor false).hp = (makeEnemy s.floor false).maxHp := rfl
      have hstd2 : (makeEnemy s.floor false).maxHp = (makeEnemy (resolveKill s e).floor false).maxHp := by
        rw [hs2]
      have hdps2 : 0 < totalDps (resolveKill s e).heroes := by
        rw [resolveKill_heroes]; exact hdps
      have hcap2 : (resolveKill s e).killsThisFloor + ((k2 + 1 : ℕ) : ℤ) ≤ killsPerFloor := by
        rw [hs2]
        show s.killsThisFloor + 1 + ((k2 + 1 : ℕ) : ℤ) ≤ killsPerFloor
        push_cast at hcap ⊢
        omega
      obtain ⟨dts2, hmem2, hsum2, hfold2⟩ :=
        ih (resolveKill s e) (makeEnemy s.floor false) now ε he2 hb2 hfull2 hstd2 hdps2 hε hcap2
      have hfeq : (fun st => resolveKill st (makeEnemy s.floor false)) = (fun st => resolveKill st e) :=
        funext (fun st => resolveKill_eqOn st (makeEnemy s.floor false) e hstd.symm (by rw [hb]; rfl))
      rw [hfeq] at hfold2
      refine ⟨dts1 ++ dts2, ?_, ?_, ?_⟩
      · intro x hx
        rcases List.mem_append.1 hx with h | h
        · exact hmem1 x h
        · exact hmem2 x h
      · rw [List.sum_append, hsum1, hsum2, hfull, resolveKill_heroes, ← hstd]
        push_cast
        ring
      · rw [tickFold_append_strip s (resolveKill s e) dts1 dts2 now (by rw [hfold1])]
        rw [hfold2]
        conv_rhs => rw [Function.iterate_succ_apply]

/-! Equations for the eight exits of the offline loop body. -/

lemma offlineIter_r_kill (dps : ℚ) (a : OffAcc) (tl : ℚ) (e : Enemy)
    (hb : e.isBoss = false) (hlt : e.hp < e.maxHp) (hle : e.hp / dps ≤ tl) :
    offlineIter dps a tl e = .inr (offKill a e, tl - e.hp / dps) := by
  simp only [offlineIter]
  rw [if_pos hb, if_pos hlt, if_pos hle]

lemma offlineIter_r_graze (dps : ℚ) (a : OffAcc) (tl : ℚ) (e : Enemy)
    (hb : e.isBoss = false) (hlt : e.hp < e.maxHp) (hle : ¬ e.hp / dps ≤ tl) :
    offlineIter dps a tl e = .inl ({ a with s := { a.s with enemy := some { e with hp := max 0 (e.hp - dps * tl) } } }, 0) := by
  simp only [offlineIter]
  rw [if_pos hb, if_pos hlt, if_neg hle]

lemma offlineIter_r_bulk (dps : ℚ) (a : OffAcc) (tl : ℚ) (e : Enemy)
    (hb : e.isBoss = false) (hlt : ¬ e.hp < e.maxHp)
    (hbulk : 1 ≤ min ⌊tl / (e.maxHp / dps)⌋ (killsPerFloor - a.s.killsThisFloor)) :
    offlineIter dps a tl e = .inr ((List.range (min ⌊tl / (e.maxHp / dps)⌋ (killsPerFloor - a.s.killsThisFloor)).toNat).foldl (fun acc _ => offKill acc e) a, tl - (min ⌊tl / (e.maxHp / dps)⌋ (killsPerFloor - a.s.killsThisFloor) : ℤ) * (e.maxHp / dps)) := by
  simp only [offlineIter]
  rw [if_pos hb, if_neg hlt, if_pos hbulk]

lemma offlineIter_r_single (dps : ℚ) (a : OffAcc) (tl : ℚ) (e : Enemy)
    (hb : e.isBoss = false) (hlt : ¬ e.hp < e.maxHp)
    (hbulk : ¬ 1 ≤ min ⌊tl / (e.maxHp / dps)⌋ (killsPerFloor - a.s.killsThisFloor))
    (hle : e.maxHp / dps ≤ tl) :
    offlineIter dps a tl e = .inr (offKill a e, tl - e.maxHp / dps) := by
  simp only [offlineIter]
  rw [if_pos hb, if_neg hlt, if_neg hbulk, if_pos hle]

lemma offlineIter_r_fullgraze (dps : ℚ) (a : OffAcc) (tl : ℚ) (e : Enemy)
    (hb : e.isBoss = false) (hlt : ¬ e.hp < e.maxHp)
    (hbulk : ¬ 1 ≤ min ⌊tl / (e.maxHp / dps)⌋ (killsPerFloor - a.s.killsThisFloor))
    (hle : ¬ e.maxHp / dps ≤ tl) :
    offlineIter dps a tl e = .inl ({ a with s := { a.s with enemy := some { e with hp := max 0 (e.hp - dps * tl) } } }, 0) := by
  simp only [offlineIter]
  rw [if_pos hb, if_neg hlt, if_neg hbulk, if_neg hle]

lemma offlineIter_b_kill (dps : ℚ) (a : OffAcc) (tl : ℚ) (e : Enemy) (t : ℚ)
    (hb : e.isBoss = true) (ht : e.bossTimeLeft = some t)
    (hle : e.hp / dps ≤ min t tl) :
    offlineIter dps a tl e = .inr (offKill a e, tl - e.hp / dps) := by
  simp only [offlineIter, ht, Option.getD_some]
  rw [if_neg (by rw [hb]; simp), if_pos hle]

lemma offlineIter_b_graze (dps : ℚ) (a : OffAcc) (tl : ℚ) (e : Enemy) (t : ℚ)
    (hb : e.isBoss = true) (ht : e.bossTimeLeft = some t)
    (hle : ¬ e.hp / dps ≤ min t tl) (hlt : tl < t) :
    offlineIter dps a tl e = .inl ({ a with s := { a.s with enemy := some { e with hp := max 0 (e.hp - dps * tl), bossTimeLeft := some (t - tl) } } }, 0) := by
  simp only [offlineIter, ht, Option.getD_some]
  rw [if_neg (by rw [hb]; simp), if_neg hle, if_pos hlt]

lemma offlineIter_b_escape (dps : ℚ) (a : OffAcc) (tl : ℚ) (e : Enemy) (t : ℚ)
    (hb : e.isBoss = true) (ht : e.bossTimeLeft = some t)
    (hle : ¬ e.hp / dps ≤ min t tl) (hlt : ¬ tl < t) :
    offlineIter dps a tl e = .inr ({ a with s := { a.s with floor := max 1 (a.s.floor - 1), killsThisFloor := 0, enemy := some (makeEnemy (max 1 (a.s.floor - 1)) false) } }, tl - t) := by
  simp only [offlineIter, ht, Option.getD_some]
  rw [if_neg (by rw [hb]; simp), if_neg hle, if_neg hlt]

/-- Main simulation lemma: whenever the offline loop finishes by using up
the whole elapsed time, the time can be chopped into online ticks of any
requested granularity whose fold reaches the same time-erased state. -/
lemma offline_sim (now : ℤ) (ε : ℚ) (hε : 0 < ε) (dps : ℚ) :
    ∀ (fuel : ℕ) (a : OffAcc) (tl : ℚ),
      dps = totalDps a.s.heroes → 0 < dps → stateWF a.s → 0 ≤ tl →
      (offlineLoop dps fuel a tl).2 = 0 →
      ∃ dts : List ℚ, (∀ d ∈ dts, 0 < d ∧ d ≤ ε) ∧ dts.sum = tl ∧
        stripTime (tickFold a.s dts now)
          = stripTime ((offlineLoop dps fuel a tl).1.s) := by
  intro fuel
  induction fuel with
  | zero =>
    intro a tl hd hdps hwf htl0 hguard
    have htlz : tl = 0 := hguard
    refine ⟨[], by simp, by simp [htlz], rfl⟩
  | succ fuel ih =>
    intro a tl hd hdps hwf htl0 hguard
    by_cases htl : 0 < tl
    case neg =>
      have htlz : tl = 0 := le_antisymm (not_lt.1 htl) htl0
      rw [offlineLoop_nonpos dps (fuel+1) a tl htl] at hguard ⊢
      exact ⟨[], by simp, by simp [htlz], rfl⟩
    case pos =>
      simp only [stateWF, enemyWF] at hwf
      obtain ⟨e, he, hhp0, hhpmax, hstd, hboss⟩ := hwf
      have hdps0 : 0 < totalDps a.s.heroes := by rw [← hd]; exact hdps
      rcases (Bool.eq_false_or_eq_true e.isBoss).symm with hb | hb
      · -- regular encounter
        by_cases hlt : e.hp < e.maxHp
        · by_cases hle : e.hp / dps ≤ tl
          · -- partial-health kill, continue
            have hstep := offlineLoop_cont dps fuel a (offKill a e) tl
              (tl - e.hp / dps) e htl he (offlineIter_r_kill dps a tl e hb hlt hle)
            rw [hstep] at hguard ⊢
            have hd2 : dps = totalDps (offKill a e).s.heroes := by
              rw [show (offKill a e).s = resolveKill a.s e from rfl, resolveKill_heroes]
              exact hd
            obtain ⟨dts2, hmem2, hsum2, hfold2⟩ := ih (offKill a e) (tl - e.hp / dps)
              hd2 hdps (stateWF_resolveKill a.s e) (sub_nonneg.2 hle) hguard
            have hbt : e.isBoss = true → ∃ t, e.bossTimeLeft = some t ∧ e.hp / totalDps a.s.heroes ≤ t := by
              intro habs
              rw [hb] at habs
              exact absurd habs (by simp)
            obtain ⟨dts1, hmem1, hsum1, hfold1⟩ := tickSeq_kill a.s e now ε he hdps0 hhp0 hbt hε
            refine ⟨dts1 ++ dts2, ?_, ?_, ?_⟩
            · intro x hx
              rcases List.mem_append.1 hx with h | h
              · exact hmem1 x h
              · exact hmem2 x h
            · rw [List.sum_append, hsum1, hsum2, ← hd]
              ring
            · rw [tickFold_append_strip a.s (offKill a e).s dts1 dts2 now (hfold1.trans rfl)]
              exact hfold2
          · -- partial-health survives, break
            have hstep := offlineLoop_brk dps fuel a tl e _ htl he
              (offlineIter_r_graze dps a tl e hb hlt hle)
            rw [hstep]
            have hsafe : totalDps a.s.heroes * tl < e.hp := by
              rw [not_le] at hle
              rw [← hd]
              calc dps * tl < dps * (e.hp / dps) := (mul_lt_mul_left hdps).2 hle
                _ = e.hp := by field_simp
            obtain ⟨dts, hmem, hsum, hfold⟩ := tickSeq_partial_regular a.s e tl now ε
              he hb hdps0 htl hsafe hε
            refine ⟨dts, hmem, hsum, ?_⟩
            rw [hfold]
            have hmax : max 0 (e.hp - dps * tl) = e.hp - dps * tl := by
              rw [hd]
              exact max_eq_right (by linarith)
            show _ = stripTime { a.s with enemy := some { e with hp := max 0 (e.hp - dps * tl) } }
            rw [hmax, hd]
        · -- full health
          have hfull : e.hp = e.maxHp := le_antisymm hhpmax (not_lt.1 hlt)
          have hstdf : e.maxHp = (makeEnemy a.s.floor false).maxHp := by rw [hstd, hb]
          have hperKill : 0 < e.maxHp / dps := by
            have hmp : 0 < e.maxHp := by
              rw [hstdf]
              exact makeEnemy_maxHp_pos a.s.floor false
            positivity
          by_cases hbulk : 1 ≤ min ⌊tl / (e.maxHp / dps)⌋ (killsPerFloor - a.s.killsThisFloor)
          · -- bulk kills, continue
            have hstep := offlineLoop_cont dps fuel a _ tl _ e htl he
              (offlineIter_r_bulk dps a tl e hb hlt hbulk)
            rw [hstep] at hguard ⊢
            have hmz : ((min ⌊tl / (e.maxHp / dps)⌋ (killsPerFloor - a.s.killsThisFloor)).toNat : ℤ)
                = min ⌊tl / (e.maxHp / dps)⌋ (killsPerFloor - a.s.killsThisFloor) :=
              Int.toNat_of_nonneg (by omega)
            have hm1 : 1 ≤ (min ⌊tl / (e.maxHp / dps)⌋ (killsPerFloor - a.s.killsThisFloor)).toNat := by
              omega
            have hfolds : ((List.range (min ⌊tl / (e.maxHp / dps)⌋ (killsPerFloor - a.s.killsThisFloor)).toNat).foldl (fun acc _ => offKill acc e) a).s
                = (fun st => resolveKill st e)^[(min ⌊tl / (e.maxHp / dps)⌋ (killsPerFloor - a.s.killsThisFloor)).toNat] a.s :=
              foldRange_offKill_s a e _
            have hd2 : dps = totalDps ((List.range (min ⌊tl / (e.maxHp / dps)⌋ (killsPerFloor - a.s.killsThisFloor)).toNat).foldl (fun acc _ => offKill acc e) a).s.heroes := by
              rw [hfolds, iterate_resolveKill_heroes]
              exact hd
            have hwf2 : stateWF ((List.range (min ⌊tl / (e.maxHp / dps)⌋ (killsPerFloor - a.s.killsThisFloor)).toNat).foldl (fun acc _ => offKill acc e) a).s := by
              rw [hfolds]
              exact stateWF_iterate_resolveKill e a.s _ hm1
            have hcbq : ((min ⌊tl / (e.maxHp / dps)⌋ (killsPerFloor - a.s.killsThisFloor) : ℤ) : ℚ) * (e.maxHp / dps) ≤ tl := by
              have h1 : ((min ⌊tl / (e.maxHp / dps)⌋ (killsPerFloor - a.s.killsThisFloor) : ℤ) : ℚ)
                  ≤ ((⌊tl / (e.maxHp / dps)⌋ : ℤ) : ℚ) := by
                exact_mod_cast min_le_left _ _
              have h2 : ((min ⌊tl / (e.maxHp / dps)⌋ (killsPerFloor - a.s.killsThisFloor) : ℤ) : ℚ)
                  ≤ tl / (e.maxHp / dps) := le_trans h1 (Int.floor_le _)
              calc ((min ⌊tl / (e.maxHp / dps)⌋ (killsPerFloor - a.s.killsThisFloor) : ℤ) : ℚ) * (e.maxHp / dps)
                  ≤ (tl / (e.maxHp / dps)) * (e.maxHp / dps) :=
                    mul_le_mul_of_nonneg_right h2 (le_of_lt hperKill)
                _ = tl := div_mul_cancel₀ tl (ne_of_gt hperKill)
            obtain ⟨dts2, hmem2, hsum2, hfold2⟩ := ih _ _ hd2 hdps hwf2 (sub_nonneg.2 hcbq) hguard
            have hcap : a.s.killsThisFloor + ((min ⌊tl / (e.maxHp / dps)⌋ (killsPerFloor - a.s.killsThisFloor)).toNat : ℤ) ≤ killsPerFloor := by
              have h3 := min_le_right ⌊tl / (e.maxHp / dps)⌋ (killsPerFloor - a.s.killsThisFloor)
              omega
            obtain ⟨dts1, hmem1, hsum1, hfold1⟩ := tickSeq_bulk
              (min ⌊tl / (e.maxHp / dps)⌋ (killsPerFloor - a.s.killsThisFloor)).toNat
              a.s e now ε he hb hfull hstdf hdps0 hε hcap
            refine ⟨dts1 ++ dts2, ?_, ?_, ?_⟩
            · intro x hx
              rcases List.mem_append.1 hx with h | h
              · exact hmem1 x h
              · exact hmem2 x h
            · rw [List.sum_append, hsum1, hsum2, ← hd]
              have hmq : (((min ⌊tl / (e.maxHp / dps)⌋ (killsPerFloor - a.s.killsThisFloor)).toNat : ℕ) : ℚ)
                  = ((min ⌊tl / (e.maxHp / dps)⌋ (killsPerFloor - a.s.killsThisFloor) : ℤ) : ℚ) := by
                exact_mod_cast congrArg (fun z : ℤ => (z : ℚ)) hmz
              rw [hmq]
              ring
            · have hglue : stripTime (tickFold a.s dts1 now)
                  = stripTime ((List.range (min ⌊tl / (e.maxHp / dps)⌋ (killsPerFloor - a.s.killsThisFloor)).toNat).foldl (fun acc _ => offKill acc e) a).s := by
                rw [hfold1, ← hfolds]
              rw [tickFold_append_strip a.s _ dts1 dts2 now hglue]
              exact hfold2
          · by_cases hsingle : e.maxHp / dps ≤ tl
            · -- exactly one full-health kill, continue
              have hstep := offlineLoop_cont dps fuel a (offKill a e) tl
                (tl - e.maxHp / dps) e htl he
                (offlineIter_r_single dps a tl e hb hlt hbulk hsingle)
              rw [hstep] at hguard ⊢
              have hd2 : dps = totalDps (offKill a e).s.heroes := by
                rw [show (offKill a e).s = resolveKill a.s e from rfl, resolveKill_heroes]
                exact hd
              obtain ⟨dts2, hmem2, hsum2, hfold2⟩ := ih (offKill a e) (tl - e.maxHp / dps)
                hd2 hdps (stateWF_resolveKill a.s e) (sub_nonneg.2 hsingle) hguard
              have hbt : e.isBoss = true → ∃ t, e.bossTimeLeft = some t ∧ e.hp / totalDps a.s.heroes ≤ t := by
                intro habs
                rw [hb] at habs
                exact absurd habs (by simp)
              obtain ⟨dts1, hmem1, hsum1, hfold1⟩ := tickSeq_kill a.s e now ε he hdps0 hhp0 hbt hε
              refine ⟨dts1 ++ dts2, ?_, ?_, ?_⟩
              · intro x hx
                rcases List.mem_append.1 hx with h | h
                · exact hmem1 x h
                · exact hmem2 x h
              · rw [List.sum_append, hsum1, hsum2, ← hd, hfull]
                ring
              · rw [tickFold_append_strip a.s (offKill a e).s dts1 dts2 now (hfold1.trans rfl)]
                exact hfold2
            · -- full health survives, break
              have hstep := offlineLoop_brk dps fuel a tl e _ htl he
                (offlineIter_r_fullgraze dps a tl e hb hlt hbulk hsingle)
              rw [hstep]
              have hsafe : totalDps a.s.heroes * tl < e.hp := by
                rw [not_le] at hsingle
                rw [← hd, hfull]
                calc dps * tl < dps * (e.maxHp / dps) := (mul_lt_mul_left hdps).2 hsingle
                  _ = e.maxHp := by field_simp
              obtain ⟨dts, hmem, hsum, hfold⟩ := tickSeq_partial_regular a.s e tl now ε
                he hb hdps0 htl hsafe hε
              refine ⟨dts, hmem, hsum, ?_⟩
              rw [hfold]
              have hmax : max 0 (e.hp - dps * tl) = e.hp - dps * tl := by
                rw [hd]
                exact max_eq_right (by linarith)
              show _ = stripTime { a.s with enemy := some { e with hp := max 0 (e.hp - dps * tl) } }
              rw [hmax, hd]
      · -- boss encounter
        obtain ⟨t, ht, htpos⟩ := hboss hb
        by_cases hkill : e.hp / dps ≤ min t tl
        · -- boss killed in time, continue
          have hstep := offlineLoop_cont dps fuel a (offKill a e) tl
            (tl - e.hp / dps) e htl he (offlineIter_b_kill dps a tl e t hb ht hkill)
          rw [hstep] at hguard ⊢
          have hd2 : dps = totalDps (offKill a e).s.heroes := by
            rw [show (offKill a e).s = resolveKill a.s e from rfl, resolveKill_heroes]
            exact hd
          have htl2 : 0 ≤ tl - e.hp / dps :=
            sub_nonneg.2 (le_trans hkill (min_le_right _ _))
          obtain ⟨dts2, hmem2, hsum2, hfold2⟩ := ih (offKill a e) (tl - e.hp / dps)
            hd2 hdps (stateWF_resolveKill a.s e) htl2 hguard
          have hbt : e.isBoss = true → ∃ u, e.bossTimeLeft = some u ∧ e.hp / totalDps a.s.heroes ≤ u := by
            intro _
            refine ⟨t, ht, ?_⟩
            rw [← hd]
            exact le_trans hkill (min_le_left _ _)
          obtain ⟨dts1, hmem1, hsum1, hfold1⟩ := tickSeq_kill a.s e now ε he hdps0 hhp0 hbt hε
          refine ⟨dts1 ++ dts2, ?_, ?_, ?_⟩
          · intro x hx
            rcases List.mem_append.1 hx with h | h
            · exact hmem1 x h
            · exact hmem2 x h
          · rw [List.sum_append, hsum1, hsum2, ← hd]
            ring
          · rw [tickFold_append_strip a.s (offKill a e).s dts1 dts2 now (hfold1.trans rfl)]
            exact hfold2
        · by_cases hesc : tl < t
          · -- boss survives, timer outlasts the window, break
            have hstep := offlineLoop_brk dps fuel a tl e _ htl he
              (offlineIter_b_graze dps a tl e t hb ht hkill hesc)
            rw [hstep]
            have hmin : min t tl = tl := min_eq_right (le_of_lt hesc)
            have hsafe : totalDps a.s.heroes * tl < e.hp := by
              rw [hmin] at hkill
              rw [not_le] at hkill
              rw [← hd]
              calc dps * tl < dps * (e.hp / dps) := (mul_lt_mul_left hdps).2 hkill
                _ = e.hp := by field_simp
            obtain ⟨dts, hmem, hsum, hfold⟩ := tickSeq_partial_boss a.s e t tl now ε
              he hb ht hdps0 htl hesc hsafe hε
            refine ⟨dts, hmem, hsum, ?_⟩
            rw [hfold]
            have hmax : max 0 (e.hp - dps * tl) = e.hp - dps * tl := by
              rw [hd]
              exact max_eq_right (by linarith)
            show _ = stripTime { a.s with enemy := some { e with hp := max 0 (e.hp - dps * tl), bossTimeLeft := some (t - tl) } }
            rw [hmax, hd]
          · -- boss escapes, continue on the floor below
            have hstep := offlineLoop_cont dps fuel a _ tl (tl - t) e htl he
              (offlineIter_b_escape dps a tl e t hb ht hkill hesc)
            rw [hstep] at hguard ⊢
            have hd2 : dps = totalDps ({ a with s := { a.s with floor := max 1 (a.s.floor - 1), killsThisFloor := 0, enemy := some (makeEnemy (max 1 (a.s.floor - 1)) false) } } : OffAcc).s.heroes := hd
            have hwf2 : stateWF ({ a with s := { a.s with floor := max 1 (a.s.floor - 1), killsThisFloor := 0, enemy := some (makeEnemy (max 1 (a.s.floor - 1)) false) } } : OffAcc).s :=
              ⟨makeEnemy (max 1 (a.s.floor - 1)) false, rfl, enemyWF_makeEnemy _ _⟩
            have htl2 : 0 ≤ tl - t := sub_nonneg.2 (not_lt.1 hesc)
            obtain ⟨dts2, hmem2, hsum2, hfold2⟩ := ih _ (tl - t) hd2 hdps hwf2 htl2 hguard
            have hmin : min t tl = t := min_eq_left (not_lt.1 hesc)
            have hsafe : totalDps a.s.heroes * t < e.hp := by
              rw [hmin] at hkill
              rw [not_le] at hkill
              rw [← hd]
              calc dps * t < dps * (e.hp / dps) := (mul_lt_mul_left hdps).2 hkill
                _ = e.hp := by field_simp
            obtain ⟨dts1, hmem1, hsum1, hfold1⟩ := tickSeq_escape a.s e t now ε
              he hb ht htpos hdps0 hsafe hε
            refine ⟨dts1 ++ dts2, ?_, ?_, ?_⟩
            · intro x hx
              rcases List.mem_append.1 hx with h | h
              · exact hmem1 x h
              · exact hmem2 x h
            · rw [List.sum_append, hsum1, hsum2]
              ring
            · rw [tickFold_append_strip a.s _ dts1 dts2 now (hfold1.trans rfl)]
              exact hfold2

lemma c1_me : makeEnemy 1 false = (⟨10, 10, false, none⟩ : Enemy) := by
  norm_num [makeEnemy, enemyBaseHp, floorGrowth, Enemy.mk.injEq]

lemma c1_dps : totalDps c1State.heroes = 5 := by
  norm_num [totalDps, c1State, heroBaseDps, HEROES]

lemma c1_wf : stateWF c1State := by
  refine ⟨⟨10, 10, false, none⟩, rfl, ?_⟩
  simp only [enemyWF]
  refine ⟨by norm_num, by norm_num, ?_, by simp⟩
  show (10:ℚ) = (makeEnemy c1State.floor false).maxHp
  rw [show c1State.floor = 1 from rfl, c1_me]

lemma c1_step1 : offlineIter 5 ⟨c1State, 0, 0, 0⟩ 2 ⟨10, 10, false, none⟩
    = .inr (c1Acc, 0) := by
  have hrange : List.range 1 = [0] := rfl
  have ht : (1:ℤ).toNat = 1 := rfl
  norm_num [offlineIter, ht, hrange, offKill, resolveKill, goldRewardFor, makeEnemy,
    c1State, c1Acc, killsPerFloor, perKillGoldPct, bossGoldMultiplier,
    enemyBaseHp, floorGrowth, bossMultiplier]

lemma c1_loop : offlineLoop 5 offlineSafety ⟨c1State, 0, 0, 0⟩ 2 = (c1Acc, 0) := by
  rw [show offlineSafety = 199999 + 1 from rfl,
    offlineLoop_cont 5 199999 _ _ 2 0 ⟨10, 10, false, none⟩ (by norm_num) rfl c1_step1]
  exact offlineLoop_nonpos 5 199999 c1Acc 0 (by norm_num)

lemma c1_core : simulateOfflineCore c1State 2 = (c1Acc, 0) := by
  rw [simulateOfflineCore_some c1State 2 ⟨10, 10, false, none⟩ rfl, c1_dps,
    if_neg (by norm_num)]
  exact c1_loop

lemma c1_coreN : simulateOfflineCore { c1State with enemy := none } 2 = (c1Acc, 0) := by
  rw [simulateOfflineCore_none _ 2 rfl]
  have hs0 : ({ { c1State with enemy := none } with
      enemy := some (makeEnemy ({ c1State with enemy := none } : SaveData).floor false) } : SaveData)
      = c1State := by
    show ({ c1State with enemy := some (makeEnemy 1 false) } : SaveData) = c1State
    rw [c1_me]
    rfl
  rw [hs0, show totalDps ({ c1State with enemy := none } : SaveData).heroes = 5 from c1_dps,
    if_neg (by norm_num)]
  exact c1_loop

/-- C1: The claimed equivalence between fine-grained online ticking and the
offline resolver fails for arbitrary states (see the counterexample: with no
active encounter, ticks do nothing while the offline resolver respawns an
enemy and fights it).  The corrected statement: for a state with a
well-formed active encounter and positive hero DPS, any elapsed time `T`
that the offline loop consumes fully within its iteration guard can be cut
into positive slices of any requested fineness whose repeated `tick`
application reproduces the gold, lifetime gold, floor and kill-count of the
single `simulateOffline` call exactly. -/
theorem tick_refines_offline (s : SaveData) (T : ℚ) (now : ℤ) (ε : ℚ)
    (hwf : stateWF s) (hdps : 0 < totalDps s.heroes) (hT : 0 < T)
    (hcap : T ≤ offlineMaxSeconds) (hguard : (simulateOfflineCore s T).2 = 0)
    (hε : 0 < ε) :
    ∃ dts : List ℚ, (∀ d ∈ dts, 0 < d ∧ d ≤ ε) ∧ dts.sum = T ∧
      (tickFold s dts now).gold = (simulateOffline s T now).state.gold ∧
      (tickFold s dts now).lifetimeGold = (simulateOffline s T now).state.lifetimeGold ∧
      (tickFold s dts now).floor = (simulateOffline s T now).state.floor ∧
      (tickFold s dts now).killsThisFloor = (simulateOffline s T now).state.killsThisFloor := by
  have hwf2 : ∃ e, s.enemy = some e ∧ enemyWF s.floor e := hwf
  obtain ⟨e, he, -⟩ := hwf2
  have hcore : simulateOfflineCore s T
      = offlineLoop (totalDps s.heroes) offlineSafety ⟨s, 0, 0, 0⟩ T := by
    rw [simulateOfflineCore_some s T e he, if_neg (by push_neg; exact ⟨hdps, hT⟩)]
  rw [hcore] at hguard
  obtain ⟨dts, hmem, hsum, hfold⟩ := offline_sim now ε hε (totalDps s.heroes)
    offlineSafety ⟨s, 0, 0, 0⟩ T rfl hdps hwf (le_of_lt hT) hguard
  have hg := congrArg SaveData.gold hfold
  have hl := congrArg SaveData.lifetimeGold hfold
  have hf := congrArg SaveData.floor hfold
  have hk := congrArg SaveData.killsThisFloor hfold
  refine ⟨dts, hmem, hsum, ?_, ?_, ?_, ?_⟩
  · rw [simulateOffline_state, hcore]
    exact hg
  · rw [simulateOffline_state, hcore]
    exact hl
  · rw [simulateOffline_state, hcore]
    exact hf
  · rw [simulateOffline_state, hcore]
    exact hk

/-- C1 counterexample: a state with no active encounter satisfies the
claimed side conditions (time within cap and guard, decomposed into small
positive dts), yet two 1-second ticks leave gold at 0 while the offline
resolver of the same 2 seconds earns 0.51. -/
theorem tick_refines_offline_counterexample :
    (∀ d ∈ [(1:ℚ), 1], 0 < d ∧ d ≤ 1) ∧ [(1:ℚ), 1].sum = 2 ∧
    (simulateOfflineCore { c1State with enemy := none } 2).2 = 0 ∧
    (tickFold { c1State with enemy := none } [1, 1] 0).gold
      ≠ (simulateOffline { c1State with enemy := none } 2 0).state.gold := by
  refine ⟨by norm_num, by norm_num, by rw [c1_coreN], ?_⟩
  rw [show tickFold { c1State with enemy := none } [1, 1] 0
      = { c1State with enemy := none } from rfl]
  rw [simulateOffline_state, c1_coreN]
  show (0:ℚ) ≠ (51/100 : ℚ)
  norm_num

theorem tick_refines_offline_witness :
    stateWF c1State ∧ 0 < totalDps c1State.heroes ∧ (0:ℚ) < 2 ∧
    (2:ℚ) ≤ offlineMaxSeconds ∧ (simulateOfflineCore c1State 2).2 = 0 ∧ (0:ℚ) < 1 ∧
    ∃ dts : List ℚ, (∀ d ∈ dts, 0 < d ∧ d ≤ 1) ∧ dts.sum = 2 ∧
      (tickFold c1State dts 0).gold = (simulateOffline c1State 2 0).state.gold ∧
      (tickFold c1State dts 0).lifetimeGold = (simulateOffline c1State 2 0).state.lifetimeGold ∧
      (tickFold c1State dts 0).floor = (simulateOffline c1State 2 0).state.floor ∧
      (tickFold c1State dts 0).killsThisFloor = (simulateOffline c1State 2 0).state.killsThisFloor :=
  ⟨c1_wf, by rw [c1_dps]; norm_num, by norm_num, by norm_num [offlineMaxSeconds],
   by rw [c1_core], by norm_num,
   tick_refines_offline c1State 2 0 1 c1_wf (by rw [c1_dps]; norm_num) (by norm_num)
     (by norm_num [offlineMaxSeconds]) (by rw [c1_core]) (by norm_num)⟩

end ClickerGame
